import Mathlib

/-!
# The Quorum — verification of the Agent Memory & Streaming Orchestration Engine

A shallow embedding of the core of `techman44/the-quorum` (the standalone
dashboard's `src/lib/db.ts` and the API routes built on it), together with
proofs and refutations of the frozen specification claims.

Modelling conventions:
* JavaScript strings are modelled as `List Char` (`Str`); `String.prototype.slice`
  and `.length` count code points, faithful for the BMP content the code handles.
* The Postgres store is modelled as a list of rows; `ON CONFLICT ... DO UPDATE`
  becomes an explicit upsert on the unique key.
* Node's `createHash('sha256').update(s).digest('hex')` is implemented directly
  (UTF-8 encoding followed by FIPS 180-4 SHA-256, hex output).
* The external embedding provider (`fetch` to Ollama) is a function parameter;
  its three observable outcomes are a successful vector, a non-`ok` HTTP
  response, and a thrown exception.
-/

set_option maxRecDepth 1000000

namespace TheQuorum

/-- JavaScript strings, modelled as lists of unicode code points. -/
abbrev Str := List Char

/-! ## SHA-256 (Node `createHash('sha256')`), over UTF-8 bytes -/

/-- UTF-8 encoding of one code point, as Node's hash `update` applies to a JS string. -/
def utf8Bytes (c : Char) : List Nat :=
  let n := c.toNat
  if n < 128 then [n]
  else if n < 2048 then [192 + n / 64, 128 + n % 64]
  else if n < 65536 then [224 + n / 4096, 128 + (n / 64) % 64, 128 + n % 64]
  else [240 + n / 262144, 128 + (n / 4096) % 64, 128 + (n / 64) % 64, 128 + n % 64]

/-- UTF-8 byte sequence of a string. -/
def strBytes (s : Str) : List Nat := (s.map utf8Bytes).flatten

/-- Truncation to a 32-bit word. -/
def w32 (n : Nat) : Nat := n % 4294967296

/-- 32-bit right rotation. -/
def rotr (n x : Nat) : Nat := w32 ((x >>> n) ||| (x <<< (32 - n)))

/-- The 64 SHA-256 round constants. -/
def shaK : List Nat :=
  [1116352408, 1899447441, 3049323471, 3921009573, 961987163, 1508970993, 2453635748, 2870763221,
   3624381080, 310598401, 607225278, 1426881987, 1925078388, 2162078206, 2614888103, 3248222580,
   3835390401, 4022224774, 264347078, 604807628, 770255983, 1249150122, 1555081692, 1996064986,
   2554220882, 2821834349, 2952996808, 3210313671, 3336571891, 3584528711, 113926993, 338241895,
   666307205, 773529912, 1294757372, 1396182291, 1695183700, 1986661051, 2177026350, 2456956037,
   2730485921, 2820302411, 3259730800, 3345764771, 3516065817, 3600352804, 4094571909, 275423344,
   430227734, 506948616, 659060556, 883997877, 958139571, 1322822218, 1537002063, 1747873779,
   1955562222, 2024104815, 2227730452, 2361852424, 2428436474, 2756734187, 3204031479, 3329325298]

/-- The SHA-256 initial hash state. -/
def shaInit : List Nat :=
  [1779033703, 3144134277, 1013904242, 2773480762, 1359893119, 2600822924, 528734635, 1541459225]

def bsig0 (x : Nat) : Nat := (rotr 2 x) ^^^ (rotr 13 x) ^^^ (rotr 22 x)
def bsig1 (x : Nat) : Nat := (rotr 6 x) ^^^ (rotr 11 x) ^^^ (rotr 25 x)
def ssig0 (x : Nat) : Nat := (rotr 7 x) ^^^ (rotr 18 x) ^^^ (x >>> 3)
def ssig1 (x : Nat) : Nat := (rotr 17 x) ^^^ (rotr 19 x) ^^^ (x >>> 10)
def chFn (x y z : Nat) : Nat := (x &&& y) ^^^ ((x ^^^ 4294967295) &&& z)
def majFn (x y z : Nat) : Nat := (x &&& y) ^^^ (x &&& z) ^^^ (y &&& z)

/-- Big-endian 8-byte encoding. -/
def be64 (n : Nat) : List Nat :=
  [(n >>> 56) % 256, (n >>> 48) % 256, (n >>> 40) % 256, (n >>> 32) % 256,
   (n >>> 24) % 256, (n >>> 16) % 256, (n >>> 8) % 256, n % 256]

/-- SHA-256 padding: a 1-bit, zeros, then the 64-bit message bit length. -/
def padMessage (msg : List Nat) : List Nat :=
  msg ++ [128] ++ List.replicate ((64 - (msg.length + 9) % 64) % 64) 0 ++ be64 (8 * msg.length)

/-- Parse bytes into big-endian 32-bit words. -/
def toWords : List Nat → List Nat
  | b0 :: b1 :: b2 :: b3 :: rest => (b0 * 16777216 + b1 * 65536 + b2 * 256 + b3) :: toWords rest
  | _ => []

/-- Split the padded message (whose length is a multiple of 64) into 64-byte blocks. -/
def splitBlocks (l : List Nat) : List (List Nat) :=
  (List.range (l.length / 64)).map (fun i => (l.drop (64 * i)).take 64)

/-- Extend a 16-word block to the 64-word message schedule. -/
def schedule (block : List Nat) : List Nat :=
  (List.range 48).foldl
    (fun ws _ =>
      let n := ws.length
      ws ++ [w32 (ssig1 (ws.getD (n - 2) 0) + ws.getD (n - 7) 0 +
                  ssig0 (ws.getD (n - 15) 0) + ws.getD (n - 16) 0)])
    block

/-- One SHA-256 compression round. -/
def compressRound (st : List Nat) (kw : Nat × Nat) : List Nat :=
  match st with
  | [a, b, c, d, e, f, g, h] =>
    let t1 := w32 (h + bsig1 e + chFn e f g + kw.1 + kw.2)
    let t2 := w32 (bsig0 a + majFn a b c)
    [w32 (t1 + t2), a, b, c, w32 (d + t1), e, f, g]
  | st => st

/-- Process one 64-byte block into the running hash state. -/
def processBlock (h : List Nat) (block : List Nat) : List Nat :=
  let st := (shaK.zip (schedule (toWords block))).foldl compressRound h
  (h.zip st).map (fun p => w32 (p.1 + p.2))

/-- Hex digit characters. -/
def hexDigit (n : Nat) : Char :=
  match n with
  | 0 => '0' | 1 => '1' | 2 => '2' | 3 => '3' | 4 => '4'
  | 5 => '5' | 6 => '6' | 7 => '7' | 8 => '8' | 9 => '9'
  | 10 => 'a' | 11 => 'b' | 12 => 'c' | 13 => 'd' | 14 => 'e'
  | _ => 'f'

/-- Lower-case hex rendering of a 32-bit word. -/
def wordHex (w : Nat) : List Char :=
  (List.range 8).map (fun i => hexDigit ((w >>> (28 - 4 * i)) % 16))

/-- `createHash('sha256').update(s).digest('hex')`. -/
def sha256Hex (s : Str) : Str :=
  (((splitBlocks (padMessage (strBytes s))).foldl processBlock shaInit).map wordHex).flatten

/-! ## Chunker (`chunkText` in `src/lib/db.ts`)

```ts
function chunkText(text: string, chunkSize: number = 500, overlap: number = 50): string[] {
  if (text.length <= chunkSize) return [text];
  const chunks: string[] = [];
  let start = 0;
  while (start < text.length) {
    chunks.push(text.slice(start, start + chunkSize));
    start += chunkSize - overlap;
  }
  return chunks;
}
```

The `while` loop is embedded with explicit fuel so that its (non-)termination
is itself a provable property: `start` is a JS number, so it is modelled as an
`Int` (`chunkSize - overlap` can be negative). -/

/-- ECMAScript `String.prototype.slice` on a list of code points. -/
def jsSlice (l : Str) (a b : Int) : Str :=
  let n : Int := l.length
  let s := if a < 0 then max (n + a) 0 else min a n
  let e := if b < 0 then max (n + b) 0 else min b n
  (l.take e.toNat).drop s.toNat

/-- The `while (start < text.length)` loop of `chunkText`, with explicit fuel.
`none` means the fuel was exhausted before the loop exited. -/
def chunkLoop (text : Str) (chunkSize overlap : Nat) :
    Nat → Int → List Str → Option (List Str)
  | 0, _, _ => none
  | fuel + 1, start, acc =>
    if start < (text.length : Int) then
      chunkLoop text chunkSize overlap fuel (start + ((chunkSize : Int) - (overlap : Int)))
        (acc ++ [jsSlice text start (start + (chunkSize : Int))])
    else some acc

/-- `chunkText`, fuelled: the outer short-text guard plus the loop. -/
def chunkTextFuel (text : Str) (chunkSize overlap fuel : Nat) : Option (List Str) :=
  if text.length ≤ chunkSize then some [text]
  else chunkLoop text chunkSize overlap fuel 0 []

/-- `chunkText` as a total function. When `overlap < chunkSize` the fuel
`text.length + 1` is sufficient (proved below), so this equals the JS function. -/
def chunkText (text : Str) (chunkSize : Nat := 500) (overlap : Nat := 50) : List Str :=
  (chunkTextFuel text chunkSize overlap (text.length + 1)).getD [text]

/-- Reference form of the loop on `Nat` offsets: the chunk starting at each
offset, advancing by `step`, while the offset is inside the text. -/
def chunksFrom (text : Str) (chunkSize step : Nat) : Nat → Nat → List Str
  | 0, _ => []
  | fuel + 1, start =>
    if start < text.length then
      ((text.drop start).take chunkSize) :: chunksFrom text chunkSize step fuel (start + step)
    else []

theorem chunkLoop_succ (text : Str) (chunkSize overlap fuel : Nat) (start : Int)
    (acc : List Str) :
    chunkLoop text chunkSize overlap (fuel + 1) start acc
      = if start < (text.length : Int) then
          chunkLoop text chunkSize overlap fuel (start + ((chunkSize : Int) - (overlap : Int)))
            (acc ++ [jsSlice text start (start + (chunkSize : Int))])
        else some acc := rfl

theorem chunksFrom_succ (text : Str) (chunkSize step fuel start : Nat) :
    chunksFrom text chunkSize step (fuel + 1) start
      = if start < text.length then
          ((text.drop start).take chunkSize) :: chunksFrom text chunkSize step fuel (start + step)
        else [] := rfl

theorem jsSlice_nonneg (l : Str) (start chunkSize : Nat) :
    jsSlice l start (start + (chunkSize : Int)) = (l.drop start).take chunkSize := by
  unfold jsSlice
  have h0 : ¬ ((start : Int) < 0) := by omega
  have h1 : ¬ ((start : Int) + (chunkSize : Int) < 0) := by omega
  simp only [h0, if_false, h1]
  rcases le_or_lt l.length start with h | h
  · have hs : (min (start : Int) (l.length : Int)).toNat = l.length := by omega
    have he : (min ((start : Int) + (chunkSize : Int)) (l.length : Int)).toNat = l.length := by
      omega
    rw [hs, he, List.take_length, List.drop_length,
      List.drop_eq_nil_iff.mpr h, List.take_nil]
  · have hs : (min (start : Int) (l.length : Int)).toNat = start := by omega
    rw [hs]
    rcases le_or_lt (start + chunkSize) l.length with h2 | h2
    · have he : (min ((start : Int) + (chunkSize : Int)) (l.length : Int)).toNat
          = start + chunkSize := by omega
      rw [he, List.drop_take]
      congr 1
      omega
    · have he : (min ((start : Int) + (chunkSize : Int)) (l.length : Int)).toNat
          = l.length := by omega
      rw [he, List.take_length]
      rw [List.take_of_length_le (by simp; omega)]

theorem chunkLoop_eq_chunksFrom (text : Str) (chunkSize overlap : Nat)
    (hov : overlap < chunkSize) :
    ∀ (fuel start : Nat) (acc : List Str),
      text.length ≤ start + fuel * (chunkSize - overlap) →
      chunkLoop text chunkSize overlap (fuel + 1) start acc
        = some (acc ++ chunksFrom text chunkSize (chunkSize - overlap) (fuel + 1) start) := by
  intro fuel
  induction fuel with
  | zero =>
    intro start acc hle
    simp only [Nat.zero_mul, Nat.add_zero] at hle
    have h1 : ¬ ((start : Int) < (text.length : Int)) := by omega
    have h2 : ¬ (start < text.length) := Nat.not_lt.mpr hle
    rw [chunkLoop_succ, chunksFrom_succ]
    simp [h1, h2]
  | succ fuel ih =>
    intro start acc hle
    have hmul : (fuel + 1) * (chunkSize - overlap)
        = fuel * (chunkSize - overlap) + (chunkSize - overlap) := by
      rw [Nat.succ_mul]
    by_cases hlt : start < text.length
    · have hlt' : (start : Int) < (text.length : Int) := by omega
      have hcast : (start : Int) + ((chunkSize : Int) - (overlap : Int))
          = ((start + (chunkSize - overlap) : Nat) : Int) := by
        push_cast [Nat.cast_sub (Nat.le_of_lt hov)]
        ring
      rw [chunkLoop_succ]
      simp only [hlt', if_true]
      rw [hcast, jsSlice_nonneg,
        ih (start + (chunkSize - overlap)) (acc ++ [(text.drop start).take chunkSize])
          (by omega)]
      rw [chunksFrom_succ text chunkSize (chunkSize - overlap) (fuel + 1) start]
      simp [hlt]
    · have hlt' : ¬ ((start : Int) < (text.length : Int)) := by omega
      rw [chunkLoop_succ, chunksFrom_succ]
      simp [hlt', hlt]

/-- Under the `overlap < chunkSize` side condition, the total `chunkText`
is the reference `chunksFrom` computation (or the single short-text span). -/
theorem chunkText_eq (text : Str) (chunkSize overlap : Nat) (hov : overlap < chunkSize) :
    chunkText text chunkSize overlap
      = if text.length ≤ chunkSize then [text]
        else chunksFrom text chunkSize (chunkSize - overlap) (text.length + 1) 0 := by
  unfold chunkText chunkTextFuel
  by_cases h : text.length ≤ chunkSize
  · simp [h]
  · simp only [h, if_false]
    have hstep : 1 ≤ chunkSize - overlap := by omega
    have hfuel : text.length ≤ 0 + text.length * (chunkSize - overlap) := by
      calc text.length = text.length * 1 := by ring
      _ ≤ text.length * (chunkSize - overlap) := Nat.mul_le_mul_left _ hstep
      _ = 0 + text.length * (chunkSize - overlap) := by ring
    have hmain := chunkLoop_eq_chunksFrom text chunkSize overlap hov text.length 0 [] hfuel
    rw [show (((0 : Nat) : Int)) = (0 : Int) by simp] at hmain
    rw [hmain]
    simp

theorem chunksFrom_nil (text : Str) (chunkSize step fuel start : Nat)
    (h : text.length ≤ start) : chunksFrom text chunkSize step fuel start = [] := by
  cases fuel with
  | zero => rfl
  | succ fuel => rw [chunksFrom_succ]; simp [Nat.not_lt.mpr h]

theorem chunksFrom_getD (text : Str) (chunkSize step : Nat) :
    ∀ (fuel start i : Nat),
      text.length ≤ start + fuel * step →
      i < (chunksFrom text chunkSize step fuel start).length →
      (chunksFrom text chunkSize step fuel start).getD i []
        = (text.drop (start + i * step)).take chunkSize := by
  intro fuel
  induction fuel with
  | zero => intro start i _ hi; simp [chunksFrom] at hi
  | succ fuel ih =>
    intro start i hle hi
    rw [chunksFrom_succ] at hi ⊢
    by_cases hlt : start < text.length
    · simp only [hlt, if_true] at hi ⊢
      cases i with
      | zero => simp
      | succ i =>
        rw [List.getD_cons_succ]
        have hmul : (fuel + 1) * step = fuel * step + step := Nat.succ_mul fuel step
        have := ih (start + step) i (by omega) (by simpa using hi)
        rw [this]
        congr 2
        ring
    · simp [hlt] at hi

theorem chunksFrom_regions (text : Str) (chunkSize overlap : Nat) (hov : overlap < chunkSize) :
    ∀ (fuel start : Nat),
      text.length ≤ start + fuel * (chunkSize - overlap) →
      ((chunksFrom text chunkSize (chunkSize - overlap) fuel start).map
        (fun c => c.drop overlap)).flatten
        = text.drop (start + overlap) := by
  intro fuel
  induction fuel with
  | zero =>
    intro start hle
    simp only [Nat.zero_mul, Nat.add_zero] at hle
    simp [chunksFrom, (List.drop_eq_nil_iff).mpr (by omega : text.length ≤ start + overlap)]
  | succ fuel ih =>
    intro start hle
    rw [chunksFrom_succ]
    by_cases hlt : start < text.length
    · have hmul : (fuel + 1) * (chunkSize - overlap)
          = fuel * (chunkSize - overlap) + (chunkSize - overlap) := Nat.succ_mul _ _
      simp only [hlt, if_true, List.map_cons, List.flatten_cons]
      rw [ih (start + (chunkSize - overlap)) (by omega)]
      rw [List.drop_take]
      rw [show text.drop (start + (chunkSize - overlap) + overlap)
            = (text.drop (start + overlap)).drop (chunkSize - overlap) by
          rw [List.drop_drop]; congr 1; omega]
      rw [show List.drop overlap (List.drop start text) = text.drop (start + overlap) by
          rw [List.drop_drop]]
      rw [show chunkSize - overlap = chunkSize - overlap from rfl]
      exact List.take_append_drop _ _
    · simp only [hlt, if_false]
      simp [(List.drop_eq_nil_iff).mpr (by omega : text.length ≤ start + overlap)]

theorem chunksFrom_length (text : Str) (chunkSize step : Nat) (hstep : 0 < step) :
    ∀ (fuel start : Nat),
      text.length ≤ start + fuel * step →
      start < text.length →
      (chunksFrom text chunkSize step fuel start).length
        = (text.length - start + step - 1) / step := by
  intro fuel
  induction fuel with
  | zero => intro start hle hlt; omega
  | succ fuel ih =>
    intro start hle hlt
    have hmul : (fuel + 1) * step = fuel * step + step := Nat.succ_mul fuel step
    rw [chunksFrom_succ]
    simp only [hlt, if_true, List.length_cons]
    by_cases h2 : start + step < text.length
    · rw [ih (start + step) (by omega) h2]
      have ha : text.length - start + step - 1 = (text.length - (start + step) + step - 1) + step := by
        omega
      rw [ha, Nat.add_div_right _ hstep]
    · rw [chunksFrom_nil text chunkSize step fuel (start + step) (by omega)]
      have : (text.length - start + step - 1) / step = 1 := by
        apply Nat.div_eq_of_lt_le
        · omega
        · omega
      simp [this]

/-- Claim C6: for `targetSize > overlap ≥ 0`, chunk `i` of `chunkText` is the
slice of the text starting at offset `i * (targetSize - overlap)` of length at
most `targetSize`, and the head chunk followed by every later chunk's
non-overlap region (the chunk minus its first `overlap` units) reconstructs the
text with no gaps and no missing suffix. -/
theorem chunkText_coverage (text : Str) (targetSize overlap : Nat)
    (hov : overlap < targetSize) :
    (∀ i, i < (chunkText text targetSize overlap).length →
      (chunkText text targetSize overlap).getD i []
          = (text.drop (i * (targetSize - overlap))).take targetSize ∧
        ((chunkText text targetSize overlap).getD i []).length ≤ targetSize) ∧
    (chunkText text targetSize overlap).headD []
      ++ (((chunkText text targetSize overlap).tail).map (fun c => c.drop overlap)).flatten
      = text := by
  have hstep : 0 < targetSize - overlap := by omega
  rw [chunkText_eq text targetSize overlap hov]
  by_cases hshort : text.length ≤ targetSize
  · simp only [hshort, if_true]
    constructor
    · intro i hi
      simp only [List.length_cons, List.length_nil] at hi
      have hz : i = 0 := by omega
      subst hz
      simp [List.take_of_length_le hshort]
      exact hshort
    · simp
  · simp only [hshort, if_false]
    have hfuel : text.length ≤ 0 + (text.length + 1) * (targetSize - overlap) := by
      have : text.length ≤ (text.length + 1) * 1 := by omega
      calc text.length ≤ (text.length + 1) * 1 := this
      _ ≤ (text.length + 1) * (targetSize - overlap) := Nat.mul_le_mul_left _ hstep
      _ = 0 + (text.length + 1) * (targetSize - overlap) := by omega
    constructor
    · intro i hi
      have hg := chunksFrom_getD text targetSize (targetSize - overlap) (text.length + 1) 0 i
        hfuel hi
      simp only [Nat.zero_add] at hg
      refine ⟨hg, ?_⟩
      rw [hg]
      simp [List.length_take]
    · have hpos : 0 < text.length := by omega
      rw [chunksFrom_succ]
      simp only [hpos, if_true]
      simp only [List.headD_cons, List.tail_cons]
      have hr := chunksFrom_regions text targetSize overlap hov (text.length)
        (0 + (targetSize - overlap))
        (by
          have : text.length ≤ text.length * (targetSize - overlap) := by
            calc text.length = text.length * 1 := by omega
            _ ≤ text.length * (targetSize - overlap) := Nat.mul_le_mul_left _ hstep
          omega)
      rw [hr]
      simp only [Nat.zero_add, List.drop_zero]
      rw [show targetSize - overlap + overlap = targetSize by omega]
      exact List.take_append_drop _ _

/-- Witness for C6 at a concrete text and parameters. -/
theorem chunkText_coverage_witness :
    1 < 4 ∧
    ((∀ i, i < (chunkText "abcdefghij".data 4 1).length →
      (chunkText "abcdefghij".data 4 1).getD i []
          = (("abcdefghij".data.drop (i * (4 - 1))).take 4) ∧
        ((chunkText "abcdefghij".data 4 1).getD i []).length ≤ 4) ∧
    (chunkText "abcdefghij".data 4 1).headD []
      ++ (((chunkText "abcdefghij".data 4 1).tail).map (fun c => c.drop 1)).flatten
      = "abcdefghij".data) :=
  ⟨by decide, chunkText_coverage "abcdefghij".data 4 1 (by decide)⟩

/-- Claim C9: `chunkText` terminates exactly under the `targetSize > overlap`
side condition.  With `overlap < chunkSize`, fuel `text.length + 1` makes the
embedded `while` loop finish; with `chunkSize ≤ overlap` and text longer than
`chunkSize`, the loop's start offset never increases past the length, so no
amount of fuel suffices. -/
theorem chunkText_termination_dichotomy :
    (∀ (text : Str) (chunkSize overlap : Nat), overlap < chunkSize →
        ∃ r, chunkTextFuel text chunkSize overlap (text.length + 1) = some r) ∧
    (∀ (text : Str) (chunkSize overlap fuel : Nat), chunkSize ≤ overlap →
        chunkSize < text.length →
        chunkTextFuel text chunkSize overlap fuel = none) := by
  constructor
  · intro text chunkSize overlap hov
    unfold chunkTextFuel
    by_cases hshort : text.length ≤ chunkSize
    · exact ⟨[text], by simp [hshort]⟩
    · have hstep : 1 ≤ chunkSize - overlap := by omega
      have hfuel : text.length ≤ 0 + text.length * (chunkSize - overlap) := by
        have : text.length ≤ text.length * (chunkSize - overlap) := by
          calc text.length = text.length * 1 := by omega
          _ ≤ text.length * (chunkSize - overlap) := Nat.mul_le_mul_left _ hstep
        omega
      have hmain := chunkLoop_eq_chunksFrom text chunkSize overlap hov text.length 0 [] hfuel
      rw [show (((0 : Nat) : Int)) = (0 : Int) by simp] at hmain
      simp only [hshort, if_false]
      exact ⟨_, hmain⟩
  · intro text chunkSize overlap fuel hov hlen
    unfold chunkTextFuel
    simp only [Nat.not_le.mpr hlen, if_false]
    have hpos : 0 < text.length := by omega
    have key : ∀ (f : Nat) (start : Int) (acc : List Str), start ≤ 0 →
        chunkLoop text chunkSize overlap f start acc = none := by
      intro f
      induction f with
      | zero => intro start acc _; rfl
      | succ f ih =>
        intro start acc hstart
        rw [chunkLoop_succ]
        have hlt : start < (text.length : Int) := by omega
        simp only [hlt, if_true]
        exact ih _ _ (by omega)
    exact key fuel 0 [] le_rfl

/-- Witness for C9: terminating and diverging parameter choices at concrete inputs. -/
theorem chunkText_termination_dichotomy_witness :
    (∃ r, chunkTextFuel "aaa".data 2 1 4 = some r) ∧
    chunkTextFuel "aaa".data 1 1 100 = none :=
  ⟨chunkText_termination_dichotomy.1 "aaa".data 2 1 (by decide),
   chunkText_termination_dichotomy.2 "aaa".data 1 1 100 (by decide) (by decide)⟩

/-! ## Decimal rendering (JS template interpolation) -/

/-- Decimal rendering of a natural number, as JS `${i}` produces. -/
def natChars (n : Nat) : Str :=
  if n = 0 then ['0'] else (Nat.digits 10 n).reverse.map hexDigit

/-- JS decimal rendering of an integer (`${code}` for a number). -/
def intChars (n : Int) : Str :=
  if n < 0 then '-' :: natChars n.natAbs else natChars n.toNat

theorem hexDigit_inj_lt10 (d1 d2 : Nat) (h1 : d1 < 10) (h2 : d2 < 10)
    (h : hexDigit d1 = hexDigit d2) : d1 = d2 := by
  interval_cases d1 <;> interval_cases d2 <;> simp_all [hexDigit]

theorem map_hexDigit_inj :
    ∀ (l1 l2 : List Nat), (∀ x ∈ l1, x < 10) → (∀ x ∈ l2, x < 10) →
      l1.map hexDigit = l2.map hexDigit → l1 = l2 := by
  intro l1
  induction l1 with
  | nil =>
    intro l2 _ _ h
    cases l2 with
    | nil => rfl
    | cons b t => simp at h
  | cons a t1 ih =>
    intro l2 hb1 hb2 h
    cases l2 with
    | nil => simp at h
    | cons b t2 =>
      simp only [List.map_cons, List.cons.injEq] at h
      have ha := hexDigit_inj_lt10 a b (hb1 a (by simp)) (hb2 b (by simp)) h.1
      have ht := ih t2 (fun x hx => hb1 x (by simp [hx])) (fun x hx => hb2 x (by simp [hx])) h.2
      rw [ha, ht]

theorem natChars_inj (m n : Nat) (h : natChars m = natChars n) : m = n := by
  unfold natChars at h
  by_cases hm : m = 0 <;> by_cases hn : n = 0
  · omega
  · exfalso
    simp only [hm, if_true, hn, if_false] at h
    have hlen := congrArg List.length h
    simp only [List.length_cons, List.length_nil, List.length_map, List.length_reverse] at hlen
    obtain ⟨d, hd⟩ := List.length_eq_one.mp hlen.symm
    rw [hd] at h
    simp only [List.reverse_cons, List.reverse_nil, List.nil_append, List.map_cons,
      List.map_nil, List.cons.injEq, and_true] at h
    have hd10 : d < 10 := Nat.digits_lt_base (by norm_num) (by rw [hd]; simp)
    have hd0 : d = 0 := (hexDigit_inj_lt10 0 d (by norm_num) hd10 h).symm
    have hofd := Nat.ofDigits_digits 10 n
    rw [hd, hd0] at hofd
    exact hn (by rw [← hofd]; simp [Nat.ofDigits_cons, Nat.ofDigits_nil])
  · exfalso
    simp only [hm, if_false, hn, if_true] at h
    have hlen := congrArg List.length h
    simp only [List.length_cons, List.length_nil, List.length_map, List.length_reverse] at hlen
    obtain ⟨d, hd⟩ := List.length_eq_one.mp hlen
    rw [hd] at h
    simp only [List.reverse_cons, List.reverse_nil, List.nil_append, List.map_cons,
      List.map_nil, List.cons.injEq, and_true] at h
    have hd10 : d < 10 := Nat.digits_lt_base (by norm_num) (by rw [hd]; simp)
    have hd0 : d = 0 := hexDigit_inj_lt10 d 0 hd10 (by norm_num) h
    have hofd := Nat.ofDigits_digits 10 m
    rw [hd, hd0] at hofd
    exact hm (by rw [← hofd]; simp [Nat.ofDigits_cons, Nat.ofDigits_nil])
  · simp only [hm, if_false, hn, if_false] at h
    have hrev : (Nat.digits 10 m).reverse = (Nat.digits 10 n).reverse :=
      map_hexDigit_inj _ _
        (fun x hx => Nat.digits_lt_base (by norm_num) (List.mem_reverse.mp hx))
        (fun x hx => Nat.digits_lt_base (by norm_num) (List.mem_reverse.mp hx)) h
    have hdig : Nat.digits 10 m = Nat.digits 10 n := by
      have := congrArg List.reverse hrev
      simpa using this
    calc m = Nat.ofDigits 10 (Nat.digits 10 m) := (Nat.ofDigits_digits 10 m).symm
    _ = Nat.ofDigits 10 (Nat.digits 10 n) := by rw [hdig]
    _ = n := Nat.ofDigits_digits 10 n

/-! ## Embedding store (`quorum_embeddings`) and `generateAndStoreEmbedding`

```ts
export async function generateAndStoreEmbedding(docId, content) {
  await pool.query(`DELETE FROM quorum_embeddings
     WHERE ref_id = $1 AND (ref_type = 'document' OR ref_type LIKE 'document_chunk_%')`, [docId]);
  const needsChunking = content.length > 2000;
  const chunks = needsChunking ? chunkText(content, 500, 50) : [content];
  for (let i = 0; i < chunks.length; i++) {
    const response = await fetch(...);                 // provider call for chunks[i]
    if (!response.ok) { ...; return false; }           // abort, earlier rows stay
    const refType = chunks.length === 1 ? 'document' : 'document_chunk_' + i;
    const contentHash = sha256(chunks[i]);
    await pool.query(`INSERT ... ON CONFLICT (ref_type, ref_id) DO UPDATE SET
       embedding = ..., content_hash = ..., created_at = now()`, ...);
  }
  return true;
}
```
-/

/-- A row of `quorum_embeddings` (vector, content hash, creation time). -/
structure EmbeddingRow where
  ref_id : Str
  ref_type : Str
  embedding : List Int
  content_hash : Str
  created_at : Nat
deriving DecidableEq, Repr

/-- The natural unique key `(ref_type, ref_id)` of `quorum_embeddings`. -/
def rowKey (r : EmbeddingRow) : Str × Str := (r.ref_type, r.ref_id)

/-- SQL `ref_type LIKE 'document_chunk_%'`.  In SQL `LIKE`, `_` matches exactly
one character and `%` any suffix, so the two underscores of the pattern are
single-character wildcards. -/
def likeDocumentChunk (s : Str) : Bool :=
  match s with
  | 'd' :: 'o' :: 'c' :: 'u' :: 'm' :: 'e' :: 'n' :: 't' :: _ ::
    'c' :: 'h' :: 'u' :: 'n' :: 'k' :: _ :: _ => true
  | _ => false

/-- The `WHERE` clause of the initial `DELETE`: document-family rows of `docId`. -/
def inDocumentFamily (docId : Str) (r : EmbeddingRow) : Bool :=
  decide (r.ref_id = docId)
    && (decide (r.ref_type = "document".data) || likeDocumentChunk r.ref_type)

/-- The initial `DELETE FROM quorum_embeddings ...` of `generateAndStoreEmbedding`. -/
def deleteDocumentEmbeddings (store : List EmbeddingRow) (docId : Str) : List EmbeddingRow :=
  store.filter (fun r => ! inDocumentFamily docId r)

/-- `INSERT ... ON CONFLICT (ref_type, ref_id) DO UPDATE SET embedding,
content_hash, created_at`. -/
def upsertEmbedding (store : List EmbeddingRow) (row : EmbeddingRow) : List EmbeddingRow :=
  if store.any (fun r => decide (rowKey r = rowKey row)) then
    store.map (fun r =>
      if rowKey r = rowKey row then
        { r with embedding := row.embedding, content_hash := row.content_hash,
                 created_at := row.created_at }
      else r)
  else store ++ [row]

/-- Observable outcomes of the provider `fetch` for one chunk. -/
inductive ProviderResult where
  /-- 200 response carrying an embedding vector. -/
  | ok (embedding : List Int)
  /-- `response.ok` is false: the function logs and returns `false`. -/
  | httpError
  /-- `fetch`/`json()` threw: the exception propagates to the caller. -/
  | thrown
deriving DecidableEq, Repr

/-- How one call to `generateAndStoreEmbedding` ends: returning `true`,
returning `false`, or propagating an exception. -/
inductive EmbedOutcome where
  | ok
  | failed
  | thrown
deriving DecidableEq, Repr

/-- `chunks.length === 1 ? 'document' : 'document_chunk_' + i`. -/
def documentRefType (total i : Nat) : Str :=
  if total = 1 then "document".data else "document_chunk_".data ++ natChars i

/-- The row inserted for chunk `i`. -/
def chunkRow (docId : Str) (now total i : Nat) (chunk : Str) (emb : List Int) : EmbeddingRow :=
  { ref_id := docId, ref_type := documentRefType total i, embedding := emb,
    content_hash := sha256Hex chunk, created_at := now }

/-- The `for` loop over chunks: provider call, abort on failure, upsert on success. -/
def embedChunksLoop (provider : Str → ProviderResult) (docId : Str) (now total : Nat) :
    Nat → List Str → List EmbeddingRow → EmbedOutcome × List EmbeddingRow
  | _, [], store => (.ok, store)
  | i, chunk :: rest, store =>
    match provider chunk with
    | .httpError => (.failed, store)
    | .thrown => (.thrown, store)
    | .ok emb =>
      embedChunksLoop provider docId now total (i + 1) rest
        (upsertEmbedding store (chunkRow docId now total i chunk emb))

/-- `content.length > 2000 ? chunkText(content, 500, 50) : [content]`. -/
def docChunks (content : Str) : List Str :=
  if 2000 < content.length then chunkText content 500 50 else [content]

/-- `generateAndStoreEmbedding(docId, content)` against a store state. -/
def generateAndStoreEmbedding (provider : Str → ProviderResult) (now : Nat) (docId : Str)
    (content : Str) (store : List EmbeddingRow) : EmbedOutcome × List EmbeddingRow :=
  embedChunksLoop provider docId now (docChunks content).length 0 (docChunks content)
    (deleteDocumentEmbeddings store docId)

/-- The rows the loop persists: one per chunk up to (exclusive) the first
provider failure. -/
def rowsOf (provider : Str → ProviderResult) (docId : Str) (now total : Nat) :
    Nat → List Str → List EmbeddingRow
  | _, [] => []
  | i, chunk :: rest =>
    match provider chunk with
    | .ok emb =>
      chunkRow docId now total i chunk emb :: rowsOf provider docId now total (i + 1) rest
    | _ => []

/-- How the loop ends, as a function of the provider's per-chunk outcomes. -/
def loopOutcome (provider : Str → ProviderResult) : List Str → EmbedOutcome
  | [] => .ok
  | chunk :: rest =>
    match provider chunk with
    | .ok _ => loopOutcome provider rest
    | .httpError => .failed
    | .thrown => .thrown

theorem likeDocumentChunk_append (s : Str) :
    likeDocumentChunk ("document_chunk_".data ++ s) = true := rfl

theorem documentRefType_family (docId : Str) (total k : Nat) (r : EmbeddingRow)
    (hid : r.ref_id = docId) (hty : r.ref_type = documentRefType total k) :
    inDocumentFamily docId r = true := by
  unfold inDocumentFamily documentRefType at *
  by_cases h1 : total = 1
  · simp only [h1, if_true] at hty
    simp [hid, hty]
  · simp only [h1, if_false] at hty
    simp [hid, hty, likeDocumentChunk_append]
    rfl

theorem documentRefType_inj (total k1 k2 : Nat) (hne : total ≠ 1)
    (h : documentRefType total k1 = documentRefType total k2) : k1 = k2 := by
  unfold documentRefType at h
  simp only [hne, if_false] at h
  exact natChars_inj k1 k2 (List.append_cancel_left h)

theorem chunkRow_rowKey (docId : Str) (now total i : Nat) (chunk : Str) (emb : List Int) :
    rowKey (chunkRow docId now total i chunk emb) = (documentRefType total i, docId) := rfl

theorem upsertEmbedding_fresh (store : List EmbeddingRow) (row : EmbeddingRow)
    (h : ∀ r ∈ store, rowKey r ≠ rowKey row) :
    upsertEmbedding store row = store ++ [row] := by
  unfold upsertEmbedding
  have hany : store.any (fun r => decide (rowKey r = rowKey row)) = false := by
    rw [List.any_eq_false]
    intro r hr
    simp [h r hr]
  rw [hany]
  simp

theorem embedChunksLoop_eq (provider : Str → ProviderResult) (docId : Str) (now total : Nat) :
    ∀ (chunks : List Str) (i : Nat) (base : List EmbeddingRow),
      (∀ k, i ≤ k → k < i + chunks.length →
        ∀ r ∈ base, rowKey r ≠ (documentRefType total k, docId)) →
      (∀ k1 k2, i ≤ k1 → i ≤ k2 → k1 < i + chunks.length → k2 < i + chunks.length →
        documentRefType total k1 = documentRefType total k2 → k1 = k2) →
      embedChunksLoop provider docId now total i chunks base
        = (loopOutcome provider chunks, base ++ rowsOf provider docId now total i chunks) := by
  intro chunks
  induction chunks with
  | nil => intro i base _ _; simp [embedChunksLoop, loopOutcome, rowsOf]
  | cons chunk rest ih =>
    intro i base hfresh hinj
    cases hp : provider chunk with
    | httpError => simp [embedChunksLoop, loopOutcome, rowsOf, hp]
    | thrown => simp [embedChunksLoop, loopOutcome, rowsOf, hp]
    | ok emb =>
      have hup : upsertEmbedding base (chunkRow docId now total i chunk emb)
          = base ++ [chunkRow docId now total i chunk emb] := by
        apply upsertEmbedding_fresh
        intro r hr
        rw [chunkRow_rowKey]
        exact hfresh i (le_refl i) (by simp) r hr
      have hfresh2 : ∀ k, i + 1 ≤ k → k < (i + 1) + rest.length →
          ∀ r ∈ base ++ [chunkRow docId now total i chunk emb],
            rowKey r ≠ (documentRefType total k, docId) := by
        intro k hk hk2 r hr
        rcases List.mem_append.mp hr with hrb | hrn
        · exact hfresh k (by omega) (by simp; omega) r hrb
        · simp only [List.mem_singleton] at hrn
          subst hrn
          rw [chunkRow_rowKey]
          intro hcontra
          have hty : documentRefType total i = documentRefType total k :=
            congrArg Prod.fst hcontra
          have := hinj i k (le_refl i) (by omega) (by simp) (by simp; omega) hty
          omega
      have hinj2 : ∀ k1 k2, i + 1 ≤ k1 → i + 1 ≤ k2 → k1 < (i + 1) + rest.length →
          k2 < (i + 1) + rest.length →
          documentRefType total k1 = documentRefType total k2 → k1 = k2 := by
        intro k1 k2 h1 h2 h3 h4 heq
        exact hinj k1 k2 (by omega) (by omega) (by simp; omega) (by simp; omega) heq
      simp only [embedChunksLoop, hp]
      rw [hup, ih (i + 1) _ hfresh2 hinj2]
      simp [loopOutcome, rowsOf, hp]

/-- Structure of one `generateAndStoreEmbedding` call: its return status is
determined by the first provider failure, and the resulting store is the old
store minus the document family plus one row per chunk before the first
provider failure. -/
theorem generateAndStoreEmbedding_eq (provider : Str → ProviderResult) (now : Nat)
    (docId : Str) (content : Str) (store : List EmbeddingRow) :
    generateAndStoreEmbedding provider now docId content store
      = (loopOutcome provider (docChunks content),
         deleteDocumentEmbeddings store docId
           ++ rowsOf provider docId now (docChunks content).length 0 (docChunks content)) := by
  unfold generateAndStoreEmbedding
  apply embedChunksLoop_eq
  · intro k _ _ r hr hkey
    have h1 : r.ref_type = documentRefType (docChunks content).length k :=
      congrArg Prod.fst hkey
    have h2 : r.ref_id = docId := congrArg Prod.snd hkey
    have hfam := documentRefType_family docId _ k r h2 h1
    have hnot := (List.mem_filter.mp hr).2
    simp [hfam] at hnot
  · intro k1 k2 _ _ hk1 hk2 heq
    by_cases hone : (docChunks content).length = 1
    · omega
    · exact documentRefType_inj _ k1 k2 hone heq

theorem generateAndStoreEmbedding_fst (provider : Str → ProviderResult) (now : Nat)
    (docId : Str) (content : Str) (store : List EmbeddingRow) :
    (generateAndStoreEmbedding provider now docId content store).1
      = loopOutcome provider (docChunks content) := by
  rw [generateAndStoreEmbedding_eq]

theorem generateAndStoreEmbedding_snd (provider : Str → ProviderResult) (now : Nat)
    (docId : Str) (content : Str) (store : List EmbeddingRow) :
    (generateAndStoreEmbedding provider now docId content store).2
      = deleteDocumentEmbeddings store docId
          ++ rowsOf provider docId now (docChunks content).length 0 (docChunks content) := by
  rw [generateAndStoreEmbedding_eq]

theorem rowsOf_family (provider : Str → ProviderResult) (docId : Str) (now total : Nat) :
    ∀ (chunks : List Str) (i : Nat), ∀ r ∈ rowsOf provider docId now total i chunks,
      inDocumentFamily docId r = true := by
  intro chunks
  induction chunks with
  | nil => intro i r hr; simp [rowsOf] at hr
  | cons chunk rest ih =>
    intro i r hr
    cases hp : provider chunk with
    | ok emb =>
      simp only [rowsOf, hp, List.mem_cons] at hr
      rcases hr with hr | hr
      · subst hr; exact documentRefType_family docId total i _ rfl rfl
      · exact ih (i + 1) r hr
    | httpError => simp [rowsOf, hp] at hr
    | thrown => simp [rowsOf, hp] at hr

theorem deleteDocumentEmbeddings_idem (store : List EmbeddingRow) (docId : Str) :
    deleteDocumentEmbeddings (deleteDocumentEmbeddings store docId) docId
      = deleteDocumentEmbeddings store docId := by
  unfold deleteDocumentEmbeddings
  rw [List.filter_filter]
  apply List.filter_congr
  intro r _
  cases inDocumentFamily docId r <;> rfl

theorem deleteDocumentEmbeddings_rowsOf (provider : Str → ProviderResult) (docId : Str)
    (now total : Nat) (chunks : List Str) (i : Nat) :
    deleteDocumentEmbeddings (rowsOf provider docId now total i chunks) docId = [] := by
  unfold deleteDocumentEmbeddings
  rw [List.filter_eq_nil_iff]
  intro r hr
  have := rowsOf_family provider docId now total chunks i r hr
  simp [this]

/-- The second `DELETE` sees exactly the non-family rows the first call left. -/
theorem deleteDocumentEmbeddings_after (provider : Str → ProviderResult) (now : Nat)
    (docId : Str) (content : Str) (store : List EmbeddingRow) :
    deleteDocumentEmbeddings
        (generateAndStoreEmbedding provider now docId content store).2 docId
      = deleteDocumentEmbeddings store docId := by
  rw [generateAndStoreEmbedding_eq]
  show deleteDocumentEmbeddings (_ ++ _) docId = _
  unfold deleteDocumentEmbeddings
  rw [List.filter_append]
  have h1 := deleteDocumentEmbeddings_idem store docId
  have h2 := deleteDocumentEmbeddings_rowsOf provider docId now
    (docChunks content).length (docChunks content) 0
  unfold deleteDocumentEmbeddings at h1 h2
  rw [h1, h2, List.append_nil]

theorem rowsOf_map_rowKey (provider : Str → ProviderResult) (docId : Str)
    (now1 now2 total : Nat) :
    ∀ (chunks : List Str) (i : Nat),
      (rowsOf provider docId now1 total i chunks).map rowKey
        = (rowsOf provider docId now2 total i chunks).map rowKey := by
  intro chunks
  induction chunks with
  | nil => intro i; rfl
  | cons chunk rest ih =>
    intro i
    cases hp : provider chunk with
    | ok emb =>
      simp only [rowsOf, hp, List.map_cons]
      rw [chunkRow_rowKey, chunkRow_rowKey, ih (i + 1)]
    | httpError => simp [rowsOf, hp]
    | thrown => simp [rowsOf, hp]

theorem rowsOf_key_mem (provider : Str → ProviderResult) (docId : Str) (now total : Nat) :
    ∀ (chunks : List Str) (i : Nat) (r : EmbeddingRow),
      r ∈ rowsOf provider docId now total i chunks →
      ∃ k, i ≤ k ∧ k < i + chunks.length ∧ rowKey r = (documentRefType total k, docId) := by
  intro chunks
  induction chunks with
  | nil => intro i r hr; simp [rowsOf] at hr
  | cons chunk rest ih =>
    intro i r hr
    cases hp : provider chunk with
    | ok emb =>
      simp only [rowsOf, hp, List.mem_cons] at hr
      rcases hr with hr | hr
      · exact ⟨i, le_refl i, by simp, by rw [hr, chunkRow_rowKey]⟩
      · obtain ⟨k, hk1, hk2, hk3⟩ := ih (i + 1) r hr
        exact ⟨k, by omega, by simp; omega, hk3⟩
    | httpError => simp [rowsOf, hp] at hr
    | thrown => simp [rowsOf, hp] at hr

theorem rowsOf_keys_nodup (provider : Str → ProviderResult) (docId : Str) (now total : Nat) :
    ∀ (chunks : List Str) (i : Nat),
      (∀ k1 k2, i ≤ k1 → i ≤ k2 → k1 < i + chunks.length → k2 < i + chunks.length →
        documentRefType total k1 = documentRefType total k2 → k1 = k2) →
      ((rowsOf provider docId now total i chunks).map rowKey).Nodup := by
  intro chunks
  induction chunks with
  | nil => intro i _; simp [rowsOf]
  | cons chunk rest ih =>
    intro i hinj
    cases hp : provider chunk with
    | ok emb =>
      simp only [rowsOf, hp, List.map_cons]
      rw [List.nodup_cons]
      constructor
      · intro hmem
        obtain ⟨r, hr, hkey⟩ := List.mem_map.mp hmem
        obtain ⟨k, hk1, hk2, hk3⟩ := rowsOf_key_mem provider docId now total rest (i + 1) r hr
        rw [chunkRow_rowKey] at hkey
        rw [hk3] at hkey
        have hty : documentRefType total k = documentRefType total i :=
          congrArg Prod.fst hkey
        have := hinj k i (by omega) (le_refl i) (by simp; omega) (by simp) hty
        omega
      · apply ih (i + 1)
        intro k1 k2 h1 h2 h3 h4 heq
        exact hinj k1 k2 (by omega) (by omega) (by simp; omega) (by simp; omega) heq
    | httpError => simp [rowsOf, hp]
    | thrown => simp [rowsOf, hp]

theorem loopOutcome_ok (provider : Str → ProviderResult) :
    ∀ (chunks : List Str), (∀ c ∈ chunks, ∃ e, provider c = .ok e) →
      loopOutcome provider chunks = .ok := by
  intro chunks
  induction chunks with
  | nil => intro _; rfl
  | cons chunk rest ih =>
    intro hok
    obtain ⟨e, he⟩ := hok chunk (by simp)
    simp only [loopOutcome, he]
    exact ih (fun c hc => hok c (by simp [hc]))

theorem loopOutcome_first_fail (provider : Str → ProviderResult) (c : Str)
    (hfail : provider c = .httpError) :
    ∀ (pre suf : List Str), (∀ x ∈ pre, ∃ e, provider x = .ok e) →
      loopOutcome provider (pre ++ c :: suf) = .failed := by
  intro pre
  induction pre with
  | nil => intro suf _; simp [loopOutcome, hfail]
  | cons a t ih =>
    intro suf hok
    obtain ⟨e, he⟩ := hok a (by simp)
    simp only [List.cons_append, loopOutcome, he]
    exact ih suf (fun x hx => hok x (by simp [hx]))

theorem rowsOf_stop_at_fail (provider : Str → ProviderResult) (docId : Str)
    (now total : Nat) (c : Str) (hfail : provider c = .httpError) :
    ∀ (pre suf : List Str) (i : Nat),
      rowsOf provider docId now total i (pre ++ c :: suf)
        = rowsOf provider docId now total i pre := by
  intro pre
  induction pre with
  | nil => intro suf i; simp [rowsOf, hfail]
  | cons a t ih =>
    intro suf i
    cases hp : provider a with
    | ok emb =>
      simp only [List.cons_append, rowsOf, hp, List.append_eq]
      rw [ih suf (i + 1)]
    | httpError => simp [rowsOf, hp]
    | thrown => simp [rowsOf, hp]

theorem rowsOf_length_ok (provider : Str → ProviderResult) (docId : Str) (now total : Nat) :
    ∀ (chunks : List Str) (i : Nat), (∀ x ∈ chunks, ∃ e, provider x = .ok e) →
      (rowsOf provider docId now total i chunks).length = chunks.length := by
  intro chunks
  induction chunks with
  | nil => intro i _; rfl
  | cons a t ih =>
    intro i hok
    obtain ⟨e, he⟩ := hok a (by simp)
    simp only [rowsOf, he, List.length_cons]
    rw [ih (i + 1) (fun x hx => hok x (by simp [hx]))]

theorem docChunks_refType_inj (content : Str) (k1 k2 : Nat)
    (h1 : k1 < (docChunks content).length) (h2 : k2 < (docChunks content).length)
    (heq : documentRefType (docChunks content).length k1
      = documentRefType (docChunks content).length k2) : k1 = k2 := by
  by_cases hone : (docChunks content).length = 1
  · omega
  · exact documentRefType_inj _ k1 k2 hone heq

/-- The document-family rows after a `generateAndStoreEmbedding` call are exactly
the rows the loop inserted. -/
theorem generateAndStoreEmbedding_family (provider : Str → ProviderResult) (now : Nat)
    (docId : Str) (content : Str) (store : List EmbeddingRow) :
    ((generateAndStoreEmbedding provider now docId content store).2).filter
        (inDocumentFamily docId)
      = rowsOf provider docId now (docChunks content).length 0 (docChunks content) := by
  rw [generateAndStoreEmbedding_eq]
  show (deleteDocumentEmbeddings store docId ++ _).filter _ = _
  rw [List.filter_append]
  have h1 : (deleteDocumentEmbeddings store docId).filter (inDocumentFamily docId) = [] := by
    unfold deleteDocumentEmbeddings
    rw [List.filter_filter, List.filter_eq_nil_iff]
    intro r _
    cases inDocumentFamily docId r <;> simp
  have h2 : (rowsOf provider docId now (docChunks content).length 0 (docChunks content)).filter
      (inDocumentFamily docId)
      = rowsOf provider docId now (docChunks content).length 0 (docChunks content) := by
    rw [List.filter_eq_self]
    exact rowsOf_family provider docId now (docChunks content).length (docChunks content) 0
  rw [h1, h2, List.nil_append]

/-- Claim C4: re-running the ingestion pipeline for the same `(refId, content)`
with a successful provider is idempotent on the store.  Both calls return
`true`; the second run leaves rows with exactly the same `(ref_type, ref_id)`
keys as the first (the delete-then-upsert discipline leaves no duplicates and
no stale chunk rows), and those keys are duplicate-free whenever the incoming
store satisfied the unique index. -/
theorem generateAndStoreEmbedding_reingest_idempotent (provider : Str → ProviderResult)
    (now1 now2 : Nat) (docId : Str) (content : Str) (store : List EmbeddingRow)
    (hok : ∀ c ∈ docChunks content, ∃ e, provider c = ProviderResult.ok e)
    (hnodup : (store.map rowKey).Nodup) :
    (generateAndStoreEmbedding provider now1 docId content store).1 = .ok ∧
    (generateAndStoreEmbedding provider now2 docId content
        (generateAndStoreEmbedding provider now1 docId content store).2).1 = .ok ∧
    ((generateAndStoreEmbedding provider now2 docId content
        (generateAndStoreEmbedding provider now1 docId content store).2).2).map rowKey
      = ((generateAndStoreEmbedding provider now1 docId content store).2).map rowKey ∧
    (((generateAndStoreEmbedding provider now1 docId content store).2).map rowKey).Nodup := by
  have hout := loopOutcome_ok provider (docChunks content) hok
  refine ⟨?_, ?_, ?_, ?_⟩
  · rw [generateAndStoreEmbedding_eq]
    exact hout
  · rw [generateAndStoreEmbedding_eq]
    exact hout
  · rw [generateAndStoreEmbedding_eq provider now2 docId content
        (generateAndStoreEmbedding provider now1 docId content store).2]
    show (deleteDocumentEmbeddings _ docId ++ _).map rowKey = _
    rw [deleteDocumentEmbeddings_after]
    rw [generateAndStoreEmbedding_eq provider now1 docId content store]
    show _ = (deleteDocumentEmbeddings store docId ++ _).map rowKey
    rw [List.map_append, List.map_append]
    congr 1
    exact rowsOf_map_rowKey provider docId now2 now1 (docChunks content).length
      (docChunks content) 0
  · rw [generateAndStoreEmbedding_eq provider now1 docId content store]
    show ((deleteDocumentEmbeddings store docId ++ _).map rowKey).Nodup
    rw [List.map_append]
    apply List.Nodup.append
    · exact List.Nodup.sublist (List.Sublist.map rowKey (List.filter_sublist store)) hnodup
    · apply rowsOf_keys_nodup
      intro k1 k2 _ _ h3 h4 heq
      exact docChunks_refType_inj content k1 k2 (by omega) (by omega) heq
    · intro key hk1 hk2
      obtain ⟨r, hr, hkey⟩ := List.mem_map.mp hk1
      obtain ⟨r2, hr2, hkey2⟩ := List.mem_map.mp hk2
      obtain ⟨k, _, _, hk3⟩ := rowsOf_key_mem provider docId now1 (docChunks content).length
        (docChunks content) 0 r2 hr2
      have hkr : rowKey r = (documentRefType (docChunks content).length k, docId) := by
        rw [hkey, ← hkey2, hk3]
      have hfam := documentRefType_family docId (docChunks content).length k r
        (congrArg Prod.snd hkr) (congrArg Prod.fst hkr)
      have hnot := (List.mem_filter.mp hr).2
      simp [hfam] at hnot

/-- Witness for C4 at a concrete document and provider. -/
theorem generateAndStoreEmbedding_reingest_idempotent_witness :
    ((generateAndStoreEmbedding (fun _ => ProviderResult.ok [1, 2]) 5 "d1".data
        "Hello world".data []).1 = .ok) ∧
    (((generateAndStoreEmbedding (fun _ => ProviderResult.ok [1, 2]) 7 "d1".data
        "Hello world".data
        (generateAndStoreEmbedding (fun _ => ProviderResult.ok [1, 2]) 5 "d1".data
          "Hello world".data []).2).2).map rowKey
      = ((generateAndStoreEmbedding (fun _ => ProviderResult.ok [1, 2]) 5 "d1".data
          "Hello world".data []).2).map rowKey) :=
  ⟨(generateAndStoreEmbedding_reingest_idempotent (fun _ => ProviderResult.ok [1, 2]) 5 7
      "d1".data "Hello world".data [] (fun c _ => ⟨[1, 2], rfl⟩) (by decide)).1,
   (generateAndStoreEmbedding_reingest_idempotent (fun _ => ProviderResult.ok [1, 2]) 5 7
      "d1".data "Hello world".data [] (fun c _ => ⟨[1, 2], rfl⟩) (by decide)).2.2.1⟩

/-- A 2250-unit document: 450 `'a'`s followed by 1800 `'b'`s, so chunk 0 starts
with `'a'` and every later chunk starts with `'b'`. -/
def c2content : Str := List.replicate 450 'a' ++ List.replicate 1800 'b'

/-- A provider that succeeds exactly on chunks starting with `'a'`: it accepts
chunk 0 of `c2content` and fails on chunk 1. -/
def c2provider : Str → ProviderResult :=
  fun s => if s.headD 'b' = 'a' then .ok [3] else .httpError

theorem c2content_length : c2content.length = 2250 := by
  simp [c2content]

theorem c2content_cons :
    c2content = 'a' :: (List.replicate 449 'a' ++ List.replicate 1800 'b') := by
  rw [c2content, show (450 : Nat) = 449 + 1 from rfl, List.replicate_succ, List.cons_append]

theorem c2_docChunks : docChunks c2content
    = chunksFrom c2content 500 450 (c2content.length + 1) 0 := by
  unfold docChunks
  rw [if_pos (by rw [c2content_length]; norm_num),
    chunkText_eq c2content 500 50 (by norm_num),
    if_neg (by rw [c2content_length]; norm_num)]

theorem c2_docChunks_length : (docChunks c2content).length = 5 := by
  rw [c2_docChunks,
    chunksFrom_length c2content 500 450 (by norm_num) (c2content.length + 1) 0
      (by rw [c2content_length]; norm_num) (by rw [c2content_length]; norm_num),
    c2content_length]

theorem c2_chunk0 : (docChunks c2content).getD 0 [] = (c2content.drop 0).take 500 := by
  rw [c2_docChunks]
  exact chunksFrom_getD c2content 500 450 (c2content.length + 1) 0 0
    (by rw [c2content_length]; norm_num)
    (by rw [← c2_docChunks, c2_docChunks_length]; norm_num)

theorem c2_chunk1 : (docChunks c2content).getD 1 [] = (c2content.drop 450).take 500 := by
  have h := chunksFrom_getD c2content 500 450 (c2content.length + 1) 0 1
    (by rw [c2content_length]; norm_num)
    (by rw [← c2_docChunks, c2_docChunks_length]; norm_num)
  rw [c2_docChunks, h]

theorem c2provider_chunk0 : c2provider ((c2content.drop 0).take 500) = .ok [3] := by
  rw [List.drop_zero, c2content_cons,
    show (500 : Nat) = 499 + 1 from rfl, List.take_succ_cons]
  simp [c2provider]

theorem c2provider_chunk1 : c2provider ((c2content.drop 450).take 500) = .httpError := by
  have hdrop : c2content.drop 450 = List.replicate 1800 'b' := by
    rw [c2content]
    nth_rewrite 1 [show (450 : Nat) = (List.replicate 450 'a').length by simp]
    rw [List.drop_left]
  rw [hdrop, List.take_replicate]
  rw [show ((500 : Nat) ⊓ 1800) = 499 + 1 by norm_num, List.replicate_succ]
  simp [c2provider]

/-- Counterexample to claim C2 as stated: with the provider failing on chunk 1
after succeeding on chunk 0, `generateAndStoreEmbedding` does return `false`,
but the store is left holding the embedding row of chunk 0 alone — a strict
prefix (1 of the document's 5 chunks). -/
theorem generateAndStoreEmbedding_partial_state_counterexample :
    (generateAndStoreEmbedding c2provider 0 "doc1".data c2content []).1 = .failed ∧
    (docChunks c2content).length = 5 ∧
    ((generateAndStoreEmbedding c2provider 0 "doc1".data c2content []).2).map
        (fun r => r.ref_type)
      = ["document_chunk_0".data] := by
  obtain ⟨a, l1, h1⟩ : ∃ a l, docChunks c2content = a :: l := by
    cases hdc : docChunks c2content with
    | nil => have := c2_docChunks_length; rw [hdc] at this; simp at this
    | cons a l => exact ⟨a, l, rfl⟩
  obtain ⟨b, l2, h2⟩ : ∃ b l, l1 = b :: l := by
    cases hdc : l1 with
    | nil =>
      have := c2_docChunks_length
      rw [h1, hdc] at this
      simp at this
    | cons b l => exact ⟨b, l, rfl⟩
  have ha : a = (c2content.drop 0).take 500 := by
    have := c2_chunk0
    rw [h1] at this
    simpa using this
  have hb : b = (c2content.drop 450).take 500 := by
    have := c2_chunk1
    rw [h1, h2] at this
    simpa using this
  have hpa : c2provider a = .ok [3] := by rw [ha]; exact c2provider_chunk0
  have hpb : c2provider b = .httpError := by rw [hb]; exact c2provider_chunk1
  have hsplit : docChunks c2content = [a] ++ b :: l2 := by rw [h1, h2]; rfl
  have hok : ∀ x ∈ [a], ∃ e, c2provider x = ProviderResult.ok e := by
    intro x hx
    rw [List.mem_singleton] at hx
    exact ⟨[3], by rw [hx]; exact hpa⟩
  have hout : loopOutcome c2provider (docChunks c2content) = .failed := by
    rw [hsplit]
    exact loopOutcome_first_fail c2provider b hpb [a] l2 hok
  have hfailed : (generateAndStoreEmbedding c2provider 0 "doc1".data c2content []).1
      = .failed := by
    rw [generateAndStoreEmbedding_fst]
    exact hout
  have hXY : rowsOf c2provider "doc1".data 0 (docChunks c2content).length 0
      (docChunks c2content)
      = rowsOf c2provider "doc1".data 0 (docChunks c2content).length 0 [a] := by
    generalize (docChunks c2content).length = T
    rw [hsplit]
    exact rowsOf_stop_at_fail c2provider "doc1".data 0 T b hpb [a] l2 0
  have hstore : (generateAndStoreEmbedding c2provider 0 "doc1".data c2content []).2
      = deleteDocumentEmbeddings [] "doc1".data
          ++ rowsOf c2provider "doc1".data 0 5 0 [a] := by
    rw [generateAndStoreEmbedding_snd, hXY, c2_docChunks_length]
  have hrows : rowsOf c2provider "doc1".data 0 5 0 [a]
      = [chunkRow "doc1".data 0 5 0 a [3]] := by
    simp [rowsOf, hpa]
  refine ⟨hfailed, c2_docChunks_length, ?_⟩
  rw [hstore, hrows]
  show ([] ++ _).map _ = _
  rw [List.nil_append]
  simp only [List.map_cons, List.map_nil]
  rw [show (chunkRow "doc1".data 0 5 0 a [3]).ref_type = documentRefType 5 0 from rfl]
  rfl

/-- Claim C2 (amended): if the provider fails (non-ok HTTP response) on some
chunk after succeeding on every earlier chunk, the pipeline aborts and returns
`false`, but the rows already inserted for the chunks before the failing one
remain in the store (they are only cleared by the delete phase of a later
ingestion run). -/
theorem generateAndStoreEmbedding_abort_on_failure (provider : Str → ProviderResult)
    (now : Nat) (docId : Str) (content : Str) (store : List EmbeddingRow)
    (pre suf : List Str) (c : Str)
    (hsplit : docChunks content = pre ++ c :: suf)
    (hok : ∀ x ∈ pre, ∃ e, provider x = ProviderResult.ok e)
    (hfail : provider c = .httpError) :
    (generateAndStoreEmbedding provider now docId content store).1 = .failed ∧
    (generateAndStoreEmbedding provider now docId content store).2
      = deleteDocumentEmbeddings store docId
          ++ rowsOf provider docId now (docChunks content).length 0 pre ∧
    (rowsOf provider docId now (docChunks content).length 0 pre).length = pre.length := by
  refine ⟨?_, ?_, rowsOf_length_ok provider docId now (docChunks content).length pre 0 hok⟩
  · rw [generateAndStoreEmbedding_eq]
    show loopOutcome provider (docChunks content) = _
    rw [hsplit]
    exact loopOutcome_first_fail provider c hfail pre suf hok
  · rw [generateAndStoreEmbedding_eq]
    show deleteDocumentEmbeddings store docId ++ _ = _
    congr 1
    generalize (docChunks content).length = T
    rw [hsplit]
    exact rowsOf_stop_at_fail provider docId now T c hfail pre suf 0

theorem rowsOf_proj (provider : Str → ProviderResult) (docId : Str) (now total : Nat) :
    ∀ (chunks : List Str) (i : Nat), (∀ c ∈ chunks, ∃ e, provider c = ProviderResult.ok e) →
      (rowsOf provider docId now total i chunks).map (fun r => (r.ref_type, r.content_hash))
        = (List.range chunks.length).map
            (fun j => (documentRefType total (i + j), sha256Hex (chunks.getD j []))) := by
  intro chunks
  induction chunks with
  | nil => intro i _; rfl
  | cons c rest ih =>
    intro i hok
    obtain ⟨e, he⟩ := hok c (by simp)
    simp only [rowsOf, he, List.map_cons, List.length_cons, List.range_succ_eq_map,
      List.map_map]
    congr 1
    rw [ih (i + 1) (fun x hx => hok x (by simp [hx]))]
    apply List.map_congr_left
    intro j _
    simp only [Function.comp_apply, List.getD_cons_succ]
    congr 2
    omega

theorem docChunks_long (content : Str) (hlen : 2000 < content.length) :
    docChunks content = chunksFrom content 500 450 (content.length + 1) 0 := by
  unfold docChunks
  rw [if_pos hlen, chunkText_eq content 500 50 (by norm_num), if_neg (by omega)]

theorem docChunks_long_length (content : Str) (hlen : 2000 < content.length) :
    (docChunks content).length = (content.length + 449) / 450 := by
  rw [docChunks_long content hlen,
    chunksFrom_length content 500 450 (by norm_num) (content.length + 1) 0
      (by omega) (by omega)]
  congr 1

theorem docChunks_long_getD (content : Str) (hlen : 2000 < content.length) (j : Nat)
    (hj : j < (docChunks content).length) :
    (docChunks content).getD j [] = (content.drop (j * 450)).take 500 := by
  have hdc := docChunks_long content hlen
  rw [hdc]
  have hg := chunksFrom_getD content 500 450 (content.length + 1) 0 j (by omega)
    (by rw [← hdc]; exact hj)
  simpa using hg

/-- Claim C5: the ingestion pipeline's default chunking policy.  Content of at
most 2000 units produces exactly one `document` row carrying the SHA-256 of the
whole content; longer content is chunked with `targetSize 500, overlap 50` into
`document_chunk_<i>` rows, row `i` carrying the SHA-256 of the chunk slice at
offset `i * 450`; a 3000-unit document yields exactly `7 = ceil((3000-50)/450)`
chunk rows. -/
theorem embedding_chunking_policy (provider : Str → ProviderResult) (now : Nat)
    (docId : Str) (content : Str) (store : List EmbeddingRow)
    (hok : ∀ c ∈ docChunks content, ∃ e, provider c = ProviderResult.ok e) :
    (content.length ≤ 2000 →
      (((generateAndStoreEmbedding provider now docId content store).2).filter
          (inDocumentFamily docId)).map (fun r => (r.ref_type, r.content_hash))
        = [("document".data, sha256Hex content)]) ∧
    (2000 < content.length →
      2 ≤ (docChunks content).length ∧
      (((generateAndStoreEmbedding provider now docId content store).2).filter
          (inDocumentFamily docId)).map (fun r => (r.ref_type, r.content_hash))
        = (List.range (docChunks content).length).map
            (fun j => ("document_chunk_".data ++ natChars j,
              sha256Hex ((content.drop (j * 450)).take 500)))) ∧
    (content.length = 3000 → (docChunks content).length = 7) := by
  have hfam := generateAndStoreEmbedding_family provider now docId content store
  refine ⟨?_, ?_, ?_⟩
  · intro hlen
    have hdc : docChunks content = [content] := by
      unfold docChunks
      rw [if_neg (by omega)]
    obtain ⟨e, he⟩ := hok content (by rw [hdc]; simp)
    rw [hfam, hdc]
    simp only [rowsOf, he, List.map_cons, List.map_nil, List.length_cons, List.length_nil]
    rfl
  · intro hlen
    have hN : (docChunks content).length = (content.length + 449) / 450 :=
      docChunks_long_length content hlen
    have hN2 : 2 ≤ (docChunks content).length := by
      rw [hN]
      exact (Nat.le_div_iff_mul_le (by norm_num)).mpr (by omega)
    refine ⟨hN2, ?_⟩
    rw [hfam, rowsOf_proj provider docId now (docChunks content).length (docChunks content)
      0 hok]
    apply List.map_congr_left
    intro j hj
    rw [List.mem_range] at hj
    have h1 : documentRefType (docChunks content).length (0 + j)
        = "document_chunk_".data ++ natChars j := by
      unfold documentRefType
      rw [if_neg (by omega), Nat.zero_add]
    rw [h1, docChunks_long_getD content hlen j hj]
  · intro hlen
    rw [docChunks_long_length content (by omega), hlen]

/-- Witness for C5: a 3000-unit document chunks into exactly 7 rows. -/
theorem embedding_chunking_policy_witness :
    (docChunks (List.replicate 3000 'a')).length = 7 :=
  (embedding_chunking_policy (fun _ => ProviderResult.ok [2]) 0 "d".data
      (List.replicate 3000 'a') [] (fun c _ => ⟨[2], rfl⟩)).2.2 (by simp)

/-- Witness for the amended C2 with a provider that fails on the first chunk. -/
theorem generateAndStoreEmbedding_abort_on_failure_witness :
    (generateAndStoreEmbedding (fun _ => ProviderResult.httpError) 0 "d".data
        "abc".data []).1 = .failed ∧
    (generateAndStoreEmbedding (fun _ => ProviderResult.httpError) 0 "d".data
        "abc".data []).2
      = deleteDocumentEmbeddings [] "d".data
          ++ rowsOf (fun _ => ProviderResult.httpError) "d".data 0
              (docChunks "abc".data).length 0 [] ∧
    (rowsOf (fun _ => ProviderResult.httpError) "d".data 0
        (docChunks "abc".data).length 0 []).length = List.length ([] : List Str) :=
  generateAndStoreEmbedding_abort_on_failure (fun _ => ProviderResult.httpError) 0 "d".data
    "abc".data [] [] [] "abc".data (by decide)
    (fun x hx => absurd hx (List.not_mem_nil x)) rfl

/-! ## Observation store (`quorum_observations`) and `createObservation`

```ts
export async function createObservation(data) {
  const fingerprintData = data.category + ':' + data.source_agent + ':' + data.content;
  const fingerprint = sha256hex(fingerprintData);
  const result = await pool.query(
    `INSERT INTO quorum_observations (...)
     ON CONFLICT (fingerprint) DO UPDATE SET
       content = EXCLUDED.content, metadata = EXCLUDED.metadata, updated_at = now()
     RETURNING *`,
    [data.category, data.content, data.source_agent, data.severity ?? 'info',
     data.status ?? 'open', data.ref_id ?? null, data.ref_type ?? null, fingerprint,
     JSON.stringify(data.metadata ?? {})]);
  return result.rows[0];
}
```
`quorum_observations` has the unique index
`idx_quorum_observations_fingerprint_unique` on `fingerprint`. -/

/-- A row of `quorum_observations`. -/
structure ObservationRow where
  id : Nat
  category : Str
  content : Str
  source_agent : Str
  severity : Str
  status : Str
  ref_id : Option Str
  ref_type : Option Str
  fingerprint : Str
  metadata : List (Str × Str)
  created_at : Nat
  updated_at : Nat
deriving DecidableEq, Repr

/-- The argument object of `createObservation` (optional fields default in SQL). -/
structure ObservationInput where
  category : Str
  content : Str
  source_agent : Str
  severity : Option Str
  status : Option Str
  ref_id : Option Str
  ref_type : Option Str
  metadata : Option (List (Str × Str))
deriving DecidableEq, Repr

/-- `sha256(category + ':' + source_agent + ':' + content)` in hex. -/
def observationFingerprint (category source_agent content : Str) : Str :=
  sha256Hex (category ++ ":".data ++ source_agent ++ ":".data ++ content)

/-- The conflict-branch update: `SET content, metadata, updated_at`. -/
def applyObservationUpdate (d : ObservationInput) (now : Nat) (r : ObservationRow) :
    ObservationRow :=
  { r with content := d.content, metadata := d.metadata.getD [], updated_at := now }

/-- `createObservation` as an upsert on the `fingerprint` unique index, returning
the affected row (`RETURNING *`) and the new store. -/
def createObservation (now nextId : Nat) (store : List ObservationRow)
    (d : ObservationInput) : ObservationRow × List ObservationRow :=
  let fp := observationFingerprint d.category d.source_agent d.content
  match store.find? (fun r => r.fingerprint == fp) with
  | some r =>
    (applyObservationUpdate d now r,
     store.map (fun q => if q.fingerprint == fp then applyObservationUpdate d now q else q))
  | none =>
    let row : ObservationRow :=
      { id := nextId, category := d.category, content := d.content,
        source_agent := d.source_agent,
        severity := d.severity.getD "info".data, status := d.status.getD "open".data,
        ref_id := d.ref_id, ref_type := d.ref_type,
        fingerprint := fp, metadata := d.metadata.getD [],
        created_at := now, updated_at := now }
    (row, store ++ [row])

/-- The fingerprint key of an input. -/
def fpOf (d : ObservationInput) : Str :=
  observationFingerprint d.category d.source_agent d.content

/-- The store row freshly inserted by `createObservation`'s no-conflict branch. -/
def freshObservationRow (now nextId : Nat) (d : ObservationInput) : ObservationRow :=
  { id := nextId, category := d.category, content := d.content,
    source_agent := d.source_agent,
    severity := d.severity.getD "info".data, status := d.status.getD "open".data,
    ref_id := d.ref_id, ref_type := d.ref_type,
    fingerprint := fpOf d, metadata := d.metadata.getD [],
    created_at := now, updated_at := now }

theorem createObservation_fresh (now nextId : Nat) (store : List ObservationRow)
    (d : ObservationInput)
    (hfind : store.find? (fun r => r.fingerprint == fpOf d) = none) :
    createObservation now nextId store d
      = (freshObservationRow now nextId d, store ++ [freshObservationRow now nextId d]) := by
  have hfind2 : store.find? (fun r => r.fingerprint
      == observationFingerprint d.category d.source_agent d.content) = none := hfind
  simp only [createObservation]
  rw [hfind2]
  rfl

theorem createObservation_conflict (now nextId : Nat) (store : List ObservationRow)
    (d : ObservationInput) (r0 : ObservationRow)
    (hfind : store.find? (fun r => r.fingerprint == fpOf d) = some r0) :
    createObservation now nextId store d
      = (applyObservationUpdate d now r0,
         store.map (fun q => if q.fingerprint == fpOf d
           then applyObservationUpdate d now q else q)) := by
  have hfind2 : store.find? (fun r => r.fingerprint
      == observationFingerprint d.category d.source_agent d.content) = some r0 := hfind
  simp only [createObservation]
  rw [hfind2]
  rfl

theorem applyObservationUpdate_fingerprint (d : ObservationInput) (now : Nat)
    (r : ObservationRow) : (applyObservationUpdate d now r).fingerprint = r.fingerprint := rfl

theorem find?_map_update (d : ObservationInput) (now : Nat) (fp : Str) :
    ∀ (store : List ObservationRow) (r0 : ObservationRow),
      store.find? (fun r => r.fingerprint == fp) = some r0 →
      (store.map (fun q => if q.fingerprint == fp then applyObservationUpdate d now q
        else q)).find? (fun r => r.fingerprint == fp)
        = some (applyObservationUpdate d now r0) := by
  intro store
  induction store with
  | nil => intro r0 h; simp at h
  | cons q t ih =>
    intro r0 h
    by_cases hq : q.fingerprint = fp
    · rw [List.find?_cons_of_pos t (by simp [hq])] at h
      injection h with h
      subst h
      simp only [List.map_cons]
      rw [if_pos (by simp [hq])]
      exact List.find?_cons_of_pos _
        (by rw [applyObservationUpdate_fingerprint]; simp [hq])
    · rw [List.find?_cons_of_neg t (by simp [hq])] at h
      simp only [List.map_cons]
      rw [if_neg (by simp [hq])]
      rw [List.find?_cons_of_neg _ (by simp [hq])]
      exact ih r0 h

theorem filter_count_one (fp : Str) :
    ∀ (store : List ObservationRow) (r0 : ObservationRow),
      ((store.map (fun r => r.fingerprint)).Nodup) →
      store.find? (fun r => r.fingerprint == fp) = some r0 →
      (store.filter (fun r => r.fingerprint == fp)).length = 1 := by
  intro store
  induction store with
  | nil => intro r0 _ h; simp at h
  | cons q t ih =>
    intro r0 hnodup hfind
    simp only [List.map_cons, List.nodup_cons] at hnodup
    by_cases hq : q.fingerprint = fp
    · have hft : t.filter (fun r => r.fingerprint == fp) = [] := by
        rw [List.filter_eq_nil_iff]
        intro x hx hpx
        have hxfp : x.fingerprint = fp := by simpa using hpx
        exact hnodup.1 (List.mem_map.mpr ⟨x, hx, by rw [hxfp, hq]⟩)
      rw [List.filter_cons_of_pos (by simp [hq]), hft]
      rfl
    · rw [List.find?_cons_of_neg t (by simp [hq])] at hfind
      rw [List.filter_cons_of_neg (by simp [hq])]
      exact ih r0 hnodup.2 hfind

theorem fingerprint_nodup_map_update (d : ObservationInput) (now : Nat) (fp : Str)
    (store : List ObservationRow)
    (hnodup : (store.map (fun r => r.fingerprint)).Nodup) :
    (((store.map (fun q => if q.fingerprint == fp then applyObservationUpdate d now q
        else q))).map (fun r => r.fingerprint)).Nodup := by
  rw [List.map_map]
  have hsame : ∀ q ∈ store,
      ((fun r : ObservationRow => r.fingerprint) ∘
        (fun q => if q.fingerprint == fp then applyObservationUpdate d now q else q)) q
        = q.fingerprint := by
    intro q _
    by_cases hq : q.fingerprint = fp <;>
      simp [hq, applyObservationUpdate_fingerprint]
  rw [List.map_congr_left hsame]
  exact hnodup

/-- Claim C3: two `createObservation` calls with the same
`(category, source_agent, content)` triple leave exactly one row carrying that
fingerprint. The second call finds the first call's row, updates its `content`,
`metadata` and `updated_at`, and leaves its `id`, `fingerprint` and
`created_at` unchanged; no duplicate row is inserted and no error is raised. -/
theorem createObservation_dedup (now1 now2 id1 id2 : Nat) (store : List ObservationRow)
    (d1 d2 : ObservationInput)
    (hcat : d1.category = d2.category) (hsrc : d1.source_agent = d2.source_agent)
    (hcon : d1.content = d2.content)
    (hnodup : (store.map (fun r => r.fingerprint)).Nodup) :
    ((createObservation now2 id2 (createObservation now1 id1 store d1).2 d2).2.filter
        (fun r => r.fingerprint == fpOf d2)).length = 1 ∧
    (createObservation now2 id2 (createObservation now1 id1 store d1).2 d2).2.length
      = (createObservation now1 id1 store d1).2.length ∧
    (createObservation now2 id2 (createObservation now1 id1 store d1).2 d2).1.id
      = (createObservation now1 id1 store d1).1.id ∧
    (createObservation now2 id2 (createObservation now1 id1 store d1).2 d2).1.fingerprint
      = (createObservation now1 id1 store d1).1.fingerprint ∧
    (createObservation now2 id2 (createObservation now1 id1 store d1).2 d2).1.created_at
      = (createObservation now1 id1 store d1).1.created_at ∧
    (createObservation now2 id2 (createObservation now1 id1 store d1).2 d2).1.content
      = d2.content ∧
    (createObservation now2 id2 (createObservation now1 id1 store d1).2 d2).1.metadata
      = d2.metadata.getD [] ∧
    (createObservation now2 id2 (createObservation now1 id1 store d1).2 d2).1.updated_at
      = now2 ∧
    (createObservation now2 id2 (createObservation now1 id1 store d1).2 d2).1
      ∈ (createObservation now2 id2 (createObservation now1 id1 store d1).2 d2).2 := by
  have hfp : fpOf d1 = fpOf d2 := by
    unfold fpOf observationFingerprint
    rw [hcat, hsrc, hcon]
  have hpost1 : ((createObservation now1 id1 store d1).2).find?
        (fun r => r.fingerprint == fpOf d2)
        = some (createObservation now1 id1 store d1).1 ∧
      (((createObservation now1 id1 store d1).2).map (fun r => r.fingerprint)).Nodup := by
    cases hfind : store.find? (fun r => r.fingerprint == fpOf d1) with
    | none =>
      rw [createObservation_fresh now1 id1 store d1 hfind]
      rw [List.find?_eq_none] at hfind
      constructor
      · rw [List.find?_append]
        have h1 : (store.find? (fun r => r.fingerprint == fpOf d2)) = none := by
          rw [List.find?_eq_none]
          intro x hx
          rw [← hfp]
          exact hfind x hx
        rw [h1]
        simp only [Option.none_or]
        apply List.find?_cons_of_pos
        rw [show (freshObservationRow now1 id1 d1).fingerprint = fpOf d1 from rfl, hfp]
        exact beq_self_eq_true _
      · rw [List.map_append]
        apply List.Nodup.append hnodup (by simp)
        intro x hx hx2
        simp only [List.map_cons, List.map_nil, List.mem_singleton] at hx2
        obtain ⟨y, hy, hyx⟩ := List.mem_map.mp hx
        rw [hx2, show (freshObservationRow now1 id1 d1).fingerprint = fpOf d1 from rfl]
          at hyx
        exact hfind y hy (by rw [← hyx]; exact beq_self_eq_true _)
    | some r0 =>
      rw [createObservation_conflict now1 id1 store d1 r0 hfind]
      constructor
      · rw [← hfp]
        exact find?_map_update d1 now1 (fpOf d1) store r0 hfind
      · exact fingerprint_nodup_map_update d1 now1 (fpOf d1) store hnodup
  obtain ⟨hfind1, hnodup1⟩ := hpost1
  have heq2 := createObservation_conflict now2 id2
    (createObservation now1 id1 store d1).2 d2 (createObservation now1 id1 store d1).1
    hfind1
  rw [heq2]
  refine ⟨?_, by simp, rfl, rfl, rfl, rfl, rfl, rfl, ?_⟩
  · exact filter_count_one (fpOf d2)
      (((createObservation now1 id1 store d1).2).map
        (fun q => if q.fingerprint == fpOf d2 then applyObservationUpdate d2 now2 q else q))
      (applyObservationUpdate d2 now2 (createObservation now1 id1 store d1).1)
      (fingerprint_nodup_map_update d2 now2 (fpOf d2) _ hnodup1)
      (find?_map_update d2 now2 (fpOf d2) _ _ hfind1)
  · exact List.mem_of_find?_eq_some
      (find?_map_update d2 now2 (fpOf d2)
        (createObservation now1 id1 store d1).2 (createObservation now1 id1 store d1).1
        hfind1)

/-- The scenario input of the observation-dedup property. -/
def c3input : ObservationInput :=
  { category := "risk".data, content := "Invoice overdue".data,
    source_agent := "executor".data, severity := none, status := none,
    ref_id := none, ref_type := none, metadata := none }

/-- Witness for C3 at the spec's scenario input, submitted twice. -/
theorem createObservation_dedup_witness :
    ((createObservation 2 1 (createObservation 1 0 [] c3input).2 c3input).2.filter
        (fun r => r.fingerprint == fpOf c3input)).length = 1 ∧
    (createObservation 2 1 (createObservation 1 0 [] c3input).2 c3input).1.id
      = (createObservation 1 0 [] c3input).1.id ∧
    (createObservation 2 1 (createObservation 1 0 [] c3input).2 c3input).1.fingerprint
      = (createObservation 1 0 [] c3input).1.fingerprint ∧
    (createObservation 2 1 (createObservation 1 0 [] c3input).2 c3input).1.updated_at = 2 :=
  ⟨(createObservation_dedup 1 2 0 1 [] c3input c3input rfl rfl rfl (by simp)).1,
   (createObservation_dedup 1 2 0 1 [] c3input c3input rfl rfl rfl (by simp)).2.2.1,
   (createObservation_dedup 1 2 0 1 [] c3input c3input rfl rfl rfl (by simp)).2.2.2.1,
   (createObservation_dedup 1 2 0 1 [] c3input c3input rfl rfl rfl
     (by simp)).2.2.2.2.2.2.2.1⟩

/-- An observation whose source agent itself contains a colon. -/
def c10first : ObservationInput :=
  { category := "risk".data, content := "b".data, source_agent := "executor:a".data,
    severity := none, status := none, ref_id := none, ref_type := none, metadata := none }

/-- A different observation triple with the same colon-joined encoding. -/
def c10second : ObservationInput :=
  { category := "risk".data, content := "a:b".data, source_agent := "executor".data,
    severity := none, status := none, ref_id := none, ref_type := none, metadata := none }

/-- Claim C10: the fingerprint is SHA-256 of the colon-joined
`category:source_agent:content` string, and the joining is not injective: the
distinct triples `("risk", "executor:a", "b")` and `("risk", "executor", "a:b")`
join to the same string, hence hash to the same fingerprint, so the second
submission merges into the first row (same id, content overwritten, the first
row's `source_agent` kept) instead of creating a separate observation. -/
theorem observationFingerprint_collision :
    (∀ d : ObservationInput, fpOf d
      = sha256Hex (d.category ++ ":".data ++ d.source_agent ++ ":".data ++ d.content)) ∧
    fpOf c10first = fpOf c10second ∧
    (c10first.category, c10first.source_agent, c10first.content)
      ≠ (c10second.category, c10second.source_agent, c10second.content) ∧
    (createObservation 20 1 (createObservation 10 0 [] c10first).2 c10second).2.length
      = 1 ∧
    (createObservation 20 1 (createObservation 10 0 [] c10first).2 c10second).1.id = 0 ∧
    (createObservation 20 1 (createObservation 10 0 [] c10first).2 c10second).1.content
      = "a:b".data ∧
    (createObservation 20 1 (createObservation 10 0 [] c10first).2 c10second).1.source_agent
      = "executor:a".data := by
  refine ⟨fun d => rfl, rfl, by decide, ?_, ?_, ?_, ?_⟩ <;> decide

/-! ## Streaming chat orchestration (`/api/chat` and `/api/quorum`)

Both routes spawn the external reasoning process, stream its stdout to the
caller while accumulating `fullResponse`, and persist the agent-side transcript
through `storeChatMessage` / `storeQuorumMessage`:

```ts
try { proc = spawn(...); } catch (err) {
  const response = 'OpenClaw is not available ...';
  const agentEvent = await storeChatMessage(agent, response, 'agent');  // 1 event
  return NextResponse.json(...);
}
proc.on('error', (err) => {
  if (fullResponse.length === 0) { fullResponse = fallback; enqueue(fallback); }
  storeChatMessage(agent, fullResponse, 'agent'); close();             // 1 event
});
proc.on('close', (code) => {
  if (code !== 0 && fullResponse.length === 0) { fullResponse = exitFallback(code); ... }
  if (fullResponse.length > 0) { storeChatMessage(agent, fullResponse, 'agent'); }
  close();
});
```
The timeout path kills the process with SIGTERM, which surfaces as `close` with
`code === null`. -/

/-- How one orchestrated invocation completes: synchronous spawn failure, a
process `error` event, or the `close` event with an exit code (`none` = killed
by signal, e.g. the route's own timeout), with the stdout accumulated so far. -/
inductive ProcCompletion where
  | spawnFail
  | procError (buffered : Str)
  | exitClose (code : Option Int) (buffered : Str)
deriving DecidableEq, Repr

/-- JS `${code}` rendering with `null` for a signal kill. -/
def codeChars : Option Int → Str
  | none => "null".data
  | some n => intChars n

def chatUnavailableMsg : Str :=
  ("OpenClaw is not available on this machine. To enable agent chat, install OpenClaw"
    ++ " and ensure the gateway is running.").data

def chatExitMsg (code : Option Int) : Str :=
  "OpenClaw exited with code ".data ++ codeChars code
    ++ ". The agent may be unavailable. Please try again.".data

def quorumUnavailableMsg : Str :=
  ("OpenClaw is not available on this machine. To enable The Quorum chat, install"
    ++ " OpenClaw and ensure the gateway is running.").data

def quorumExitMsg (code : Option Int) : Str :=
  "OpenClaw exited with code ".data ++ codeChars code
    ++ ". The Quorum may be unavailable. Please try again.".data

/-- The agent-side transcript Events a route persists for one invocation, as a
function of how the spawned process completes. -/
def routeStoredResponses (unavailableMsg : Str) (exitMsg : Option Int → Str) :
    ProcCompletion → List Str
  | .spawnFail => [unavailableMsg]
  | .procError buffered => [if buffered.isEmpty then unavailableMsg else buffered]
  | .exitClose code buffered =>
    let buffered := if code ≠ some 0 ∧ buffered.isEmpty then exitMsg code else buffered
    if buffered.isEmpty then [] else [buffered]

/-- `/api/chat`'s persisted agent responses. -/
def chatStoredResponses : ProcCompletion → List Str :=
  routeStoredResponses chatUnavailableMsg chatExitMsg

/-- `/api/quorum`'s persisted council responses. -/
def quorumStoredResponses : ProcCompletion → List Str :=
  routeStoredResponses quorumUnavailableMsg quorumExitMsg

theorem routeStoredResponses_spec (unavailableMsg : Str) (exitMsg : Option Int → Str)
    (hum : unavailableMsg ≠ []) (hem : ∀ c, exitMsg c ≠ []) (mode : ProcCompletion) :
    ((routeStoredResponses unavailableMsg exitMsg mode).length
        = if mode = .exitClose (some 0) [] then 0 else 1) ∧
    (routeStoredResponses unavailableMsg exitMsg mode).all (fun s => !s.isEmpty) = true := by
  cases mode with
  | spawnFail =>
    refine ⟨rfl, ?_⟩
    simp [routeStoredResponses, List.isEmpty_eq_false.mpr hum]
  | procError buffered =>
    by_cases hbuf : buffered = []
    · subst hbuf
      refine ⟨rfl, ?_⟩
      simp [routeStoredResponses, List.isEmpty_eq_false.mpr hum]
    · constructor
      · rfl
      · simp [routeStoredResponses, List.isEmpty_eq_false.mpr hbuf, hbuf]
  | exitClose code buffered =>
    by_cases hc0 : code = some 0 <;> by_cases hbuf : buffered = []
    · subst hc0; subst hbuf
      exact ⟨rfl, rfl⟩
    · subst hc0
      constructor
      · simp [routeStoredResponses, hbuf, List.isEmpty_eq_false.mpr hbuf]
      · simp [routeStoredResponses, hbuf, List.isEmpty_eq_false.mpr hbuf]
    · subst hbuf
      constructor
      · simp [routeStoredResponses, hc0, List.isEmpty_eq_false.mpr (hem code)]
      · simp [routeStoredResponses, hc0, List.isEmpty_eq_false.mpr (hem code)]
    · constructor
      · simp [routeStoredResponses, hc0, hbuf, List.isEmpty_eq_false.mpr hbuf]
      · simp [routeStoredResponses, hc0, hbuf, List.isEmpty_eq_false.mpr hbuf]

theorem chatUnavailableMsg_ne_nil : chatUnavailableMsg ≠ [] := by decide

theorem quorumUnavailableMsg_ne_nil : quorumUnavailableMsg ≠ [] := by decide

theorem chatExitMsg_ne_nil (c : Option Int) : chatExitMsg c ≠ [] := by
  unfold chatExitMsg
  have hlit : ("OpenClaw exited with code ".data : Str) ≠ [] := by decide
  exact List.append_ne_nil_of_left_ne_nil hlit _

theorem quorumExitMsg_ne_nil (c : Option Int) : quorumExitMsg c ≠ [] := by
  unfold quorumExitMsg
  have hlit : ("OpenClaw exited with code ".data : Str) ≠ [] := by decide
  exact List.append_ne_nil_of_left_ne_nil hlit _

/-- Counterexample to claim C1 as stated: in the normal-completion mode where
the process exits cleanly (code 0) having produced zero output, neither route
persists any transcript Event — no fallback is synthesized (the `close` handler
only synthesizes one for `code !== 0`) and `fullResponse.length > 0` guards the
store call — so "exactly one non-empty transcript Event" fails. -/
theorem routes_empty_clean_exit_counterexample :
    chatStoredResponses (.exitClose (some 0) []) = [] ∧
    quorumStoredResponses (.exitClose (some 0) []) = [] := ⟨rfl, rfl⟩

/-- Claim C1 (amended): for both streaming routes, a spawn failure, a runtime
process error, a timeout kill (`close` with a null code), and any abnormal exit
each persist exactly one transcript Event, and every persisted transcript is
non-empty; a normal exit persists exactly one non-empty transcript when the
output buffer is non-empty and persists nothing when the process exited cleanly
(code 0) with an empty buffer. -/
theorem routes_always_respond_amended (mode : ProcCompletion) :
    ((chatStoredResponses mode).length
        = if mode = .exitClose (some 0) [] then 0 else 1) ∧
    (chatStoredResponses mode).all (fun s => !s.isEmpty) = true ∧
    ((quorumStoredResponses mode).length
        = if mode = .exitClose (some 0) [] then 0 else 1) ∧
    (quorumStoredResponses mode).all (fun s => !s.isEmpty) = true := by
  obtain ⟨h1, h2⟩ := routeStoredResponses_spec chatUnavailableMsg chatExitMsg
    chatUnavailableMsg_ne_nil chatExitMsg_ne_nil mode
  obtain ⟨h3, h4⟩ := routeStoredResponses_spec quorumUnavailableMsg quorumExitMsg
    quorumUnavailableMsg_ne_nil quorumExitMsg_ne_nil mode
  exact ⟨h1, h2, h3, h4⟩

/-! ## Document upload route (`POST /api/documents/upload`)

Both branches (multipart and JSON) share the same storage core:

```ts
const document = await storeDocumentFromUpload({ title, content, doc_type, ... });
let embedded = false;
try {
  embedded = await generateAndStoreEmbedding(document.id, content);
} catch (err) {
  console.error('Embedding generation failed:', err);
}
return NextResponse.json({ document_id: document.id, embedded });
```
-/

/-- A row of `quorum_documents` (the fields the upload route populates). -/
structure DocumentRow where
  id : Str
  title : Str
  content : Str
  doc_type : Str
deriving DecidableEq, Repr

/-- The route's possible HTTP responses. -/
inductive UploadResponse where
  | badRequest (msg : Str)
  | serverError
  | okJson (document_id : Str) (embedded : Bool)
deriving DecidableEq, Repr

/-- The JSON branch of the upload route: falsy-field validation, document
insert, embedding attempt under `try`/`catch`, success JSON response.  `docId`
is the id the store generates for the inserted document. -/
def uploadJsonPost (provider : Str → ProviderResult) (now : Nat) (docId : Str)
    (title content docType : Str) (docs : List DocumentRow)
    (embStore : List EmbeddingRow) :
    List DocumentRow × List EmbeddingRow × UploadResponse :=
  if title.isEmpty || content.isEmpty || docType.isEmpty then
    (docs, embStore,
     .badRequest "Missing required fields: title, content, doc_type".data)
  else
    let docs := docs ++ [{ id := docId, title := title, content := content,
                           doc_type := docType }]
    let result := generateAndStoreEmbedding provider now docId content embStore
    let embedded := match result.1 with
      | .ok => true
      | .failed => false
      | .thrown => false
    (docs, result.2, .okJson docId embedded)

/-- Claim C7: whenever the required fields are present, the Document row is
persisted regardless of the embedding outcome; an Embedding Provider failure or
a thrown embedding error never undoes or prevents the document insert, and the
outcome reaches the caller solely as the boolean `embedded` of the success JSON
response (`true` exactly when the pipeline returned `true`), never as an error
response. -/
theorem upload_document_persists (provider : Str → ProviderResult) (now : Nat)
    (docId : Str) (title content docType : Str) (docs : List DocumentRow)
    (embStore : List EmbeddingRow)
    (ht : title ≠ []) (hc : content ≠ []) (hd : docType ≠ []) :
    (uploadJsonPost provider now docId title content docType docs embStore).1
      = docs ++ [{ id := docId, title := title, content := content,
                   doc_type := docType }] ∧
    (uploadJsonPost provider now docId title content docType docs embStore).2.1
      = (generateAndStoreEmbedding provider now docId content embStore).2 ∧
    ∃ e : Bool,
      (uploadJsonPost provider now docId title content docType docs embStore).2.2
        = .okJson docId e ∧
      (e = true ↔ (generateAndStoreEmbedding provider now docId content embStore).1
        = .ok) := by
  have hcond : (title.isEmpty || content.isEmpty || docType.isEmpty) = false := by
    rw [List.isEmpty_eq_false.mpr ht, List.isEmpty_eq_false.mpr hc,
      List.isEmpty_eq_false.mpr hd]
    rfl
  have hred : uploadJsonPost provider now docId title content docType docs embStore
      = (docs ++ [{ id := docId, title := title, content := content,
                    doc_type := docType }],
         (generateAndStoreEmbedding provider now docId content embStore).2,
         .okJson docId
           (match (generateAndStoreEmbedding provider now docId content embStore).1 with
            | .ok => true
            | .failed => false
            | .thrown => false)) := by
    unfold uploadJsonPost
    rw [if_neg (by rw [hcond]; exact Bool.false_ne_true)]
  rw [hred]
  refine ⟨rfl, rfl, ?_⟩
  cases hg : (generateAndStoreEmbedding provider now docId content embStore).1 with
  | ok => exact ⟨true, rfl, by simp [hg]⟩
  | failed => exact ⟨false, rfl, by simp [hg]⟩
  | thrown => exact ⟨false, rfl, by simp [hg]⟩

/-- Witness for C7 with a provider whose call throws: the document persists and
the response is the success JSON with `embedded = false`. -/
theorem upload_document_persists_witness :
    (uploadJsonPost (fun _ => ProviderResult.thrown) 0 "id1".data "t".data "c".data
        "note".data [] []).1
      = [] ++ [{ id := "id1".data, title := "t".data, content := "c".data,
                 doc_type := "note".data }] ∧
    ∃ e : Bool,
      (uploadJsonPost (fun _ => ProviderResult.thrown) 0 "id1".data "t".data "c".data
          "note".data [] []).2.2
        = .okJson "id1".data e ∧
      (e = true ↔ (generateAndStoreEmbedding (fun _ => ProviderResult.thrown) 0 "id1".data
          "c".data []).1 = .ok) :=
  ⟨(upload_document_persists (fun _ => ProviderResult.thrown) 0 "id1".data "t".data
      "c".data "note".data [] [] (by decide) (by decide) (by decide)).1,
   (upload_document_persists (fun _ => ProviderResult.thrown) 0 "id1".data "t".data
      "c".data "note".data [] [] (by decide) (by decide) (by decide)).2.2⟩

/-! ## Scheduler policy: quiet hours

The tiered Python agent runner that consumes `AGENT_QUIET_HOURS_START` and
`AGENT_QUIET_HOURS_END` is not part of the sources here; only its documentation
is (`docs-python/architecture.md`: "During quiet hours, agents still run and
write to the database, but they suppress notifications"). -/

/-- Modelled from the spec: the quiet-hours window test over local hours.  The
spec's `[quietStart, quietEnd)` window, wrapping midnight when
`quietEnd < quietStart` (the documented default is 22 → 8). -/
def inQuietHours (quietStart quietEnd hour : Nat) : Bool :=
  if quietStart ≤ quietEnd then decide (quietStart ≤ hour ∧ hour < quietEnd)
  else decide (quietStart ≤ hour ∨ hour < quietEnd)

/-- What one agent run wants to do: store writes plus outbound notifications. -/
structure AgentFindings where
  tasks : List Str
  observations : List Str
  notifications : List Str
deriving DecidableEq, Repr

/-- The externally visible effects of one agent run. -/
structure AgentRunResult where
  tasksWritten : List Str
  observationsWritten : List Str
  notificationsSent : List Str
deriving DecidableEq, Repr

/-- Modelled from the spec: an agent run at a given local hour.  The quiet-hours
gate is checked only at the notification boundary; the Memory Store writes
(Task and Observation rows) are unconditional. -/
def runAgentModel (quietStart quietEnd hour : Nat) (f : AgentFindings) : AgentRunResult :=
  { tasksWritten := f.tasks, observationsWritten := f.observations,
    notificationsSent :=
      if inQuietHours quietStart quietEnd hour then [] else f.notifications }

/-- Claim C8 (modelled from the spec): a run at an hour inside the quiet-hours
window writes its Task and Observation rows exactly as a run outside the window
does, but sends zero notifications, while the identical run outside the window
sends its notifications. -/
theorem quiet_hours_suppression (quietStart quietEnd hq ha : Nat) (f : AgentFindings)
    (hin : inQuietHours quietStart quietEnd hq = true)
    (hout : inQuietHours quietStart quietEnd ha = false) :
    (runAgentModel quietStart quietEnd hq f).tasksWritten
      = (runAgentModel quietStart quietEnd ha f).tasksWritten ∧
    (runAgentModel quietStart quietEnd hq f).observationsWritten
      = (runAgentModel quietStart quietEnd ha f).observationsWritten ∧
    (runAgentModel quietStart quietEnd hq f).tasksWritten = f.tasks ∧
    (runAgentModel quietStart quietEnd hq f).observationsWritten = f.observations ∧
    (runAgentModel quietStart quietEnd hq f).notificationsSent = [] ∧
    (runAgentModel quietStart quietEnd ha f).notificationsSent = f.notifications := by
  unfold runAgentModel
  rw [hin, hout]
  exact ⟨rfl, rfl, rfl, rfl, rfl, rfl⟩

/-- Witness for C8 at the documented default window 22 → 8: a run at 23:00 is
suppressed, an identical run at 09:00 notifies. -/
theorem quiet_hours_suppression_witness :
    (runAgentModel 22 8 23
        ⟨["t1".data], ["o1".data], ["n1".data]⟩).notificationsSent = [] ∧
    (runAgentModel 22 8 9
        ⟨["t1".data], ["o1".data], ["n1".data]⟩).notificationsSent = ["n1".data] ∧
    (runAgentModel 22 8 23 ⟨["t1".data], ["o1".data], ["n1".data]⟩).tasksWritten
      = (runAgentModel 22 8 9 ⟨["t1".data], ["o1".data], ["n1".data]⟩).tasksWritten :=
  ⟨(quiet_hours_suppression 22 8 23 9 ⟨["t1".data], ["o1".data], ["n1".data]⟩
      (by decide) (by decide)).2.2.2.2.1,
   (quiet_hours_suppression 22 8 23 9 ⟨["t1".data], ["o1".data], ["n1".data]⟩
      (by decide) (by decide)).2.2.2.2.2,
   (quiet_hours_suppression 22 8 23 9 ⟨["t1".data], ["o1".data], ["n1".data]⟩
      (by decide) (by decide)).1⟩

end TheQuorum
